/-
  Verification of the backup-entries collector (src/Backups/BackupEntriesCollector.cpp).

  The development shallowly embeds the collector: the external catalog
  (DatabaseCatalog / IDatabase / IStorage) is modelled as explicit data, the
  coordination service as an oracle, and C++ exceptions as `Except` values.
  Pointer identities (DatabasePtr / StoragePtr) are modelled as `Nat` ids.
-/
import Mathlib

namespace Backups

/-! ## Association lists

`std::map` / `std::unordered_map` members of the collector are modelled as
association lists with unique keys.  `lookupA` finds the first binding,
`insertA` replaces an existing binding in place or appends a fresh one,
matching `operator[]` together with subsequent field assignment. -/

def lookupA {α β : Type} [DecidableEq α] : List (α × β) → α → Option β
  | [], _ => none
  | (a, b) :: rest, x => if a = x then some b else lookupA rest x

def insertA {α β : Type} [DecidableEq α] : List (α × β) → α → β → List (α × β)
  | [], x, y => [(x, y)]
  | (a, b) :: rest, x, y => if a = x then (x, y) :: rest else (a, b) :: insertA rest x y

theorem lookupA_nil {α β : Type} [DecidableEq α] (x : α) :
    lookupA ([] : List (α × β)) x = none := rfl

theorem lookupA_mem {α β : Type} [DecidableEq α] {l : List (α × β)} {x : α} {b : β}
    (h : lookupA l x = some b) : (x, b) ∈ l := by
  induction l with
  | nil => simp [lookupA] at h
  | cons p rest ih =>
    rw [show p = (p.1, p.2) from rfl] at *
    simp only [lookupA] at h
    split at h
    · rename_i heq
      cases h
      simp [heq]
    · exact List.mem_cons_of_mem _ (ih h)

theorem lookupA_of_mem_nodup {α β : Type} [DecidableEq α] {l : List (α × β)} {x : α} {b : β}
    (hmem : (x, b) ∈ l) (hnd : (l.map Prod.fst).Nodup) : lookupA l x = some b := by
  induction l with
  | nil => simp at hmem
  | cons p rest ih =>
    simp only [List.map_cons, List.nodup_cons] at hnd
    rcases List.mem_cons.1 hmem with h | h
    · subst h
      simp [lookupA]
    · have hne : p.1 ≠ x := by
        intro he
        exact hnd.1 (he ▸ (List.mem_map.2 ⟨(x, b), h, rfl⟩))
      rw [show p = (p.1, p.2) from rfl]
      simp only [lookupA, if_neg hne]
      exact ih h hnd.2

theorem lookupA_isSome_iff_mem_keys {α β : Type} [DecidableEq α] {l : List (α × β)} {x : α} :
    (lookupA l x).isSome = true ↔ x ∈ l.map Prod.fst := by
  induction l with
  | nil => simp [lookupA]
  | cons p rest ih =>
    rw [show p = (p.1, p.2) from rfl]
    simp only [lookupA, List.map_cons, List.mem_cons]
    split
    · rename_i heq
      simp [heq]
    · rename_i hne
      simp only [ih]
      constructor
      · exact Or.inr
      · rintro (h | h)
        · exact absurd h.symm hne
        · exact h

theorem lookupA_insertA_self {α β : Type} [DecidableEq α] (l : List (α × β)) (x : α) (b : β) :
    lookupA (insertA l x b) x = some b := by
  induction l with
  | nil => simp [insertA, lookupA]
  | cons p rest ih =>
    rw [show p = (p.1, p.2) from rfl]
    simp only [insertA]
    split
    · simp [lookupA]
    · rename_i hne
      simp [lookupA, hne, ih]

theorem lookupA_insertA_ne {α β : Type} [DecidableEq α] (l : List (α × β)) (x y : α) (b : β)
    (hne : x ≠ y) : lookupA (insertA l x b) y = lookupA l y := by
  induction l with
  | nil => simp [insertA, lookupA, hne]
  | cons p rest ih =>
    rw [show p = (p.1, p.2) from rfl]
    simp only [insertA]
    split
    · rename_i heq
      subst heq
      simp [lookupA, hne]
    · rename_i hpne
      by_cases hpy : p.1 = y
      · simp [lookupA, hpy]
      · simp [lookupA, hpy, ih]

theorem mem_insertA {α β : Type} [DecidableEq α] {l : List (α × β)} {x : α} {b : β} {p : α × β}
    (h : p ∈ insertA l x b) : p = (x, b) ∨ p ∈ l := by
  induction l with
  | nil => simpa [insertA] using h
  | cons q rest ih =>
    rw [show q = (q.1, q.2) from rfl] at h ⊢
    simp only [insertA] at h
    split at h
    · rcases List.mem_cons.1 h with h | h
      · exact Or.inl h
      · exact Or.inr (List.mem_cons_of_mem _ h)
    · rcases List.mem_cons.1 h with h | h
      · exact Or.inr (h ▸ List.mem_cons_self _ _)
      · rcases ih h with h | h
        · exact Or.inl h
        · exact Or.inr (List.mem_cons_of_mem _ h)

theorem map_fst_insertA {α β : Type} [DecidableEq α] (l : List (α × β)) (x : α) (b : β) :
    (insertA l x b).map Prod.fst =
      if x ∈ l.map Prod.fst then l.map Prod.fst else l.map Prod.fst ++ [x] := by
  induction l with
  | nil => simp [insertA]
  | cons p rest ih =>
    rw [show p = (p.1, p.2) from rfl]
    simp only [insertA]
    split
    · rename_i heq
      simp [heq]
    · rename_i hne
      have hxne : ¬ x = p.1 := fun h => hne h.symm
      simp only [List.map_cons, List.mem_cons, hxne, false_or]
      rw [ih]
      split <;> simp

theorem nodup_keys_insertA {α β : Type} [DecidableEq α] {l : List (α × β)} (x : α) (b : β)
    (hnd : (l.map Prod.fst).Nodup) : ((insertA l x b).map Prod.fst).Nodup := by
  rw [map_fst_insertA]
  split
  · exact hnd
  · rename_i hnot
    refine List.Nodup.append hnd (List.nodup_singleton x) ?_
    intro a ha hb
    simp only [List.mem_singleton] at hb
    subst hb
    exact hnot ha

/-! ## Basic data model -/

/-- `QualifiedTableName { database, table }`. -/
structure QualifiedTableName where
  database : String
  table : String
deriving DecidableEq, Repr

/-- `BackupEntriesCollector::TableKey`: qualified name plus temporary flag. -/
structure TableKey where
  name : QualifiedTableName
  is_temporary : Bool
deriving DecidableEq, Repr

/-- `TableKey::operator==` (lines 31-34 of the source). -/
def TableKey.beq (a b : TableKey) : Bool :=
  (a.name = b.name) && (a.is_temporary = b.is_temporary)

/-- `TableKey::operator<` (lines 36-39): by name, then by temporary flag
(`false < true` for `bool`).  `QualifiedTableName::operator<` is external;
it is modelled lexicographically. -/
def TableKey.lt (a b : TableKey) : Bool :=
  (a.name.database < b.name.database
      || (a.name.database = b.name.database && a.name.table < b.name.table))
    || (a.name = b.name && (!a.is_temporary && b.is_temporary))

theorem TableKey.beq_iff_eq (a b : TableKey) : TableKey.beq a b = true ↔ a = b := by
  cases a with
  | mk an at_ =>
    cases b with
    | mk bn bt =>
      simp only [TableKey.beq]
      constructor
      · intro h
        simp only [Bool.and_eq_true, decide_eq_true_eq] at h
        simp [h.1, h.2]
      · intro h
        cases h
        simp

/-- The `create->as<ASTCreateQuery>()` fields consulted by the collector:
`getDatabase()`, `getTable()`, `temporary`. -/
structure CreateTableQuery where
  database : String
  table : String
  temporary : Bool
deriving DecidableEq, Repr

/-- One storage (table object) of the catalog.  `storageId` models the
`StoragePtr` identity.  `create_table_query` models the combined outcome of
`lockForShare` + `getCreateQueryForBackup`: `none` means the pair throws
`TABLE_IS_DROPPED` (the table is being concurrently dropped). -/
structure StorageInfo where
  storageId : Nat
  create_table_query : Option CreateTableQuery
deriving DecidableEq, Repr

/-- One database of the catalog.  `dbId` models the `DatabasePtr` identity;
`create_database_query` is the database name embedded in the result of
`getCreateDatabaseQueryForBackup` (`none` = that call throws, the database is
being dropped); `tables` is the enumeration order of
`getTablesIteratorForBackup`. -/
structure CatDatabase where
  dbId : Nat
  create_database_query : Option String
  tables : List (String × StorageInfo)
deriving DecidableEq, Repr

/-- The external catalog (`DatabaseCatalog`), as observed during one scan
pass.  Temporary tables resolve through `Context::ResolveExternal` into the
dedicated temporary database, whose identity is `temporaryDbId`. -/
structure Catalog where
  databases : List (String × CatDatabase)
  temporaryDbId : Nat
  temporary_tables : List (String × StorageInfo)
deriving DecidableEq, Repr

/-- One element of `ASTBackupQuery::Elements` (types TABLE / TEMPORARY_TABLE /
DATABASE / ALL, with the fields each type uses). -/
inductive QueryElement where
  | table (database_name : String) (table_name : String) (partitions : Option (List String))
  | temporaryTable (table_name : String) (partitions : Option (List String))
  | database (database_name : String) (except_tables : List (String × String))
  | all (except_databases : List String) (except_tables : List (String × String))
deriving DecidableEq, Repr

/-- The renaming configuration (`DDLRenamingMap`, built by
`makeRenamingMapFromBackupQuery`, outside this source file): the three query
operations the collector uses. -/
structure RenamingMap where
  newDatabaseName : String → String
  newTableName : QualifiedTableName → QualifiedTableName
  newTemporaryTableName : String → String

/-- `BackupEntriesCollector::TableInfo`.  `database`/`storage` are pointer
identities, `table_lock` records that the shared lock is held. -/
structure TableInfo where
  database : Nat
  storage : Nat
  table_lock : Bool
  create_table_query : CreateTableQuery
  data_path_in_backup : String
  partitions : Option (List String)
deriving DecidableEq, Repr

/-- `BackupEntriesCollector::DatabaseInfo`.  `create_database_query` is the
database name embedded in the retrieved definition. -/
structure DatabaseInfo where
  database : Nat
  create_database_query : String
deriving DecidableEq, Repr

/-- The per-pass mutable scan state: `database_infos`, `table_infos` and the
`consistent` flag. -/
structure ScanState where
  database_infos : List (String × DatabaseInfo)
  table_infos : List (TableKey × TableInfo)
  consistent : Bool
deriving DecidableEq, Repr

/-- `previous_database_names` / `previous_table_names` of the collector. -/
structure PrevSets where
  previous_database_names : Option (Finset String)
  previous_table_names : Option (Finset TableKey)
deriving DecidableEq

/-- The error taxonomy of the collector (`DB::Exception` codes and messages
it throws or propagates). -/
inductive BackupError where
  | logicalError (message : String)
  | cannotCollect (pass : Nat) (elapsed : Int)
  | requiredTableMissing (name : QualifiedTableName) (is_temporary : Bool)
  | tableDropped (name : QualifiedTableName)
  | requiredDatabaseMissing (name : String)
  | databaseDropped (name : String)
  | syncFailed (stage : Nat)
  | backupDataFailed (key : TableKey)
deriving DecidableEq, Repr

/-! ## Paths -/

/-- `std::filesystem::path::operator/` restricted to the relative components
the collector appends: insert a separator unless the left side is empty or
already ends with one. -/
def pathAppend (p c : String) : String :=
  if p = "" then c
  else if p.data.getLast? = some (Char.ofNat 47) then p ++ c
  else p ++ "/" ++ c

/-- Context threaded through a scan pass: the renaming map, the (external)
`escapeForFileName` primitive and the previously calculated root path. -/
structure ScanCtx where
  renaming_map : RenamingMap
  escape : String → String
  root_path_in_backup : String

/-- Resolution of a (possibly temporary) qualified name against the catalog:
`(try)resolveStorageID` + `DatabaseCatalog::(try)getDatabaseAndTable`,
returning the database identity and the storage. -/
def resolveDatabaseAndTable (cat : Catalog) (table_name : QualifiedTableName)
    (is_temporary_table : Bool) : Option (Nat × StorageInfo) :=
  if is_temporary_table then
    match lookupA cat.temporary_tables table_name.table with
    | some s => some (cat.temporaryDbId, s)
    | none => none
  else
    match lookupA cat.databases table_name.database with
    | some d =>
      match lookupA d.tables table_name.table with
      | some s => some (d.dbId, s)
      | none => none
    | none => none

/-- Everything `collectTableInfo` needs from the catalog for one key:
resolution plus lock + definition retrieval.  `none` when any of those steps
reports the table as missing / dropped. -/
def tryCollect (cat : Catalog) (k : TableKey) : Option (Nat × Nat × CreateTableQuery) :=
  match resolveDatabaseAndTable cat k.name k.is_temporary with
  | some (database, s) =>
    match s.create_table_query with
    | some c => some (database, s.storageId, c)
    | none => none
  | none => none

/-- The `data_path_in_backup` computed in `collectTableInfo` (lines 275-286). -/
def tableDataPath (ctx : ScanCtx) (table_name : QualifiedTableName)
    (is_temporary_table : Bool) : String :=
  if is_temporary_table then
    let table_name_in_backup := ctx.renaming_map.newTemporaryTableName table_name.table
    pathAppend (pathAppend (pathAppend ctx.root_path_in_backup "temporary_tables") "data")
      (ctx.escape table_name_in_backup)
  else
    let table_name_in_backup := ctx.renaming_map.newTableName table_name
    pathAppend (pathAppend (pathAppend ctx.root_path_in_backup "data")
      (ctx.escape table_name_in_backup.database)) (ctx.escape table_name_in_backup.table)

/-- The partition accumulation of lines 316-321: `table_infos[key]` starts
from the entry's previous partition list (`none` for a fresh
default-constructed entry) and appends the newly requested selectors. -/
def mergedParts (old : Option (List String)) (partitions : Option (List String)) :
    Option (List String) :=
  match partitions with
  | none => old
  | some ps => some (old.getD [] ++ ps)

/-- Lines 288-321 of `collectTableInfo`: the consistency cross-checks and the
insertion into `table_infos`, for a table whose resolution and definition
retrieval succeeded. -/
def collectResolvedTable (ctx : ScanCtx) (st : ScanState) (table_name : QualifiedTableName)
    (is_temporary_table : Bool) (partitions : Option (List String))
    (database : Nat) (storageId : Nat) (create : CreateTableQuery) : ScanState :=
  if create.table ≠ table_name.table ∨ is_temporary_table ≠ create.temporary
      ∨ create.database ≠ table_name.database then
    -- Table was renamed recently.
    { st with consistent := false }
  else
    match lookupA st.table_infos ⟨table_name, is_temporary_table⟩ with
    | some table_info =>
      if table_info.database ≠ database ∨ table_info.storage ≠ storageId then
        -- Table was renamed recently.
        { st with consistent := false }
      else
        { st with table_infos := (insertA st.table_infos ⟨table_name, is_temporary_table⟩
            ⟨database, storageId, true, create, tableDataPath ctx table_name is_temporary_table,
              mergedParts table_info.partitions partitions⟩) }
    | none =>
      { st with table_infos := (insertA st.table_infos ⟨table_name, is_temporary_table⟩
          ⟨database, storageId, true, create, tableDataPath ctx table_name is_temporary_table,
            mergedParts none partitions⟩) }

/-- `BackupEntriesCollector::collectTableInfo` (lines 226-322). -/
def collectTableInfo (cat : Catalog) (ctx : ScanCtx) (st : ScanState)
    (table_name : QualifiedTableName) (is_temporary_table : Bool)
    (partitions : Option (List String)) (throw_if_not_found : Bool) :
    Except BackupError ScanState :=
  if throw_if_not_found then
    match resolveDatabaseAndTable cat table_name is_temporary_table with
    | none => .error (.requiredTableMissing table_name is_temporary_table)
    | some (database, s) =>
      match s.create_table_query with
      | none => .error (.tableDropped table_name)
      | some create =>
        .ok (collectResolvedTable ctx st table_name is_temporary_table partitions
          database s.storageId create)
  else
    match resolveDatabaseAndTable cat table_name is_temporary_table with
    | some (database, s) =>
      match s.create_table_query with
      | some create =>
        .ok (collectResolvedTable ctx st table_name is_temporary_table partitions
          database s.storageId create)
      | none =>
        .ok { st with consistent :=
          st.consistent && !(lookupA st.table_infos ⟨table_name, is_temporary_table⟩).isSome }
    | none =>
      .ok { st with consistent :=
        st.consistent && !(lookupA st.table_infos ⟨table_name, is_temporary_table⟩).isSome }

/-- The table-enumeration loop of `collectDatabaseInfo` (lines 382-390):
recursive non-required table lookups, aborting on inconsistency. -/
def collectDatabaseTables (cat : Catalog) (ctx : ScanCtx) (database_name : String)
    (except_tables : List (String × String)) :
    List (String × StorageInfo) → ScanState → Except BackupError ScanState
  | [], st => .ok st
  | (tname, _) :: rest, st =>
    if (database_name, tname) ∈ except_tables then
      collectDatabaseTables cat ctx database_name except_tables rest st
    else
      match collectTableInfo cat ctx st ⟨database_name, tname⟩ false none false with
      | .error e => .error e
      | .ok st2 =>
        if st2.consistent then
          collectDatabaseTables cat ctx database_name except_tables rest st2
        else
          .ok st2

/-- Lines 356-390 of `collectDatabaseInfo`: cross-checks, insertion into
`database_infos`, and recursion into the database's tables, once the
database and its definition were retrieved. -/
def collectResolvedDatabase (cat : Catalog) (ctx : ScanCtx) (st : ScanState)
    (database_name : String) (except_tables : List (String × String))
    (d : CatDatabase) (create_database_query : String) : Except BackupError ScanState :=
  if create_database_query ≠ database_name then
    -- Database was renamed recently.
    .ok { st with consistent := false }
  else
    match lookupA st.database_infos database_name with
    | some database_info =>
      if database_info.database ≠ d.dbId then
        -- Database was renamed recently.
        .ok { st with consistent := false }
      else
        collectDatabaseTables cat ctx database_name except_tables d.tables
          { st with database_infos := (insertA st.database_infos database_name
              ⟨d.dbId, create_database_query⟩) }
    | none =>
      collectDatabaseTables cat ctx database_name except_tables d.tables
        { st with database_infos := (insertA st.database_infos database_name
            ⟨d.dbId, create_database_query⟩) }

/-- `BackupEntriesCollector::collectDatabaseInfo` (lines 324-391). -/
def collectDatabaseInfo (cat : Catalog) (ctx : ScanCtx) (st : ScanState)
    (database_name : String) (except_tables : List (String × String))
    (throw_if_not_found : Bool) : Except BackupError ScanState :=
  if throw_if_not_found then
    match lookupA cat.databases database_name with
    | none => .error (.requiredDatabaseMissing database_name)
    | some d =>
      match d.create_database_query with
      | none => .error (.databaseDropped database_name)
      | some create_database_query =>
        collectResolvedDatabase cat ctx st database_name except_tables d create_database_query
  else
    match lookupA cat.databases database_name with
    | none =>
      .ok { st with consistent :=
        st.consistent && !(lookupA st.database_infos database_name).isSome }
    | some d =>
      match d.create_database_query with
      | none =>
        -- The database has been dropped recently.
        .ok { st with consistent :=
          st.consistent && !(lookupA st.database_infos database_name).isSome }
      | some create_database_query =>
        collectResolvedDatabase cat ctx st database_name except_tables d create_database_query

/-- The database-enumeration loop of `collectAllDatabasesInfo` (lines 393-403). -/
def collectAllDatabasesList (cat : Catalog) (ctx : ScanCtx)
    (except_databases : List String) (except_tables : List (String × String)) :
    List (String × CatDatabase) → ScanState → Except BackupError ScanState
  | [], st => .ok st
  | (database_name, _) :: rest, st =>
    if database_name ∈ except_databases then
      collectAllDatabasesList cat ctx except_databases except_tables rest st
    else
      match collectDatabaseInfo cat ctx st database_name except_tables false with
      | .error e => .error e
      | .ok st2 =>
        if st2.consistent then
          collectAllDatabasesList cat ctx except_databases except_tables rest st2
        else
          .ok st2

/-- `BackupEntriesCollector::collectAllDatabasesInfo`. -/
def collectAllDatabasesInfo (cat : Catalog) (ctx : ScanCtx) (st : ScanState)
    (except_databases : List String) (except_tables : List (String × String)) :
    Except BackupError ScanState :=
  collectAllDatabasesList cat ctx except_databases except_tables cat.databases st

/-- Dispatch of one query element (the `switch` at lines 172-200). -/
def processElement (cat : Catalog) (ctx : ScanCtx) (st : ScanState) :
    QueryElement → Except BackupError ScanState
  | .table database_name table_name partitions =>
    collectTableInfo cat ctx st ⟨database_name, table_name⟩ false partitions true
  | .temporaryTable table_name partitions =>
    collectTableInfo cat ctx st ⟨"", table_name⟩ true partitions true
  | .database database_name except_tables =>
    collectDatabaseInfo cat ctx st database_name except_tables true
  | .all except_databases except_tables =>
    collectAllDatabasesInfo cat ctx st except_databases except_tables

/-- The element loop of one pass; note the source does not break out of this
loop on inconsistency. -/
def runElements (cat : Catalog) (ctx : ScanCtx) :
    List QueryElement → ScanState → Except BackupError ScanState
  | [], st => .ok st
  | e :: rest, st =>
    match processElement cat ctx st e with
    | .error err => .error err
    | .ok st2 => runElements cat ctx rest st2

/-- One full pass: clear `database_infos` / `table_infos`, reset `consistent`
and process every query element (lines 167-200). -/
def runPass (cat : Catalog) (ctx : ScanCtx) (q : List QueryElement) :
    Except BackupError ScanState :=
  runElements cat ctx q ⟨[], [], true⟩

/-- The database-name set collected by a pass (keys of `database_infos`). -/
def databaseNames (st : ScanState) : Finset String :=
  (st.database_infos.map Prod.fst).toFinset

/-- The `TableKey` set collected by a pass (keys of `table_infos`). -/
def tableNames (st : ScanState) : Finset TableKey :=
  (st.table_infos.map Prod.fst).toFinset

/-- The per-table cross-database check of `checkConsistency` (lines 412-424). -/
def crossDbCheck (st : ScanState) : Bool :=
  st.table_infos.all fun p =>
    match lookupA st.database_infos p.1.name.database with
    | some database_info => database_info.database = p.2.database
    | none => true

/-- `BackupEntriesCollector::checkConsistency` (lines 406-440): returns the
final `consistent` flag of the pass together with the updated previous-pass
name sets. -/
def checkConsistency (st : ScanState) (prev : PrevSets) : Bool × PrevSets :=
  if !st.consistent then
    (false, prev)
  else if !crossDbCheck st then
    (false, prev)
  else
    match prev.previous_database_names, prev.previous_table_names with
    | some pdn, some ptn =>
      if pdn = databaseNames st ∧ ptn = tableNames st then
        (true, prev)
      else
        (false, ⟨some (databaseNames st), some (tableNames st)⟩)
    | _, _ => (false, ⟨some (databaseNames st), some (tableNames st)⟩)

/-- Outcome of the fixed-point loop.  `ok passes st` is successful
convergence after `passes` passes; `outOfFuel` is an artifact of the fuelled
model: the real loop would still be iterating. -/
inductive LoopOutcome where
  | ok (passes : Nat) (st : ScanState)
  | err (e : BackupError)
  | outOfFuel
deriving DecidableEq, Repr

/-- The do/while fixed-point loop of `collectDatabasesAndTablesInfo`
(lines 159-224).  `timeout` is the configured deadline in abstract time units
(negative means none is configured, matching `timeout.count() >= 0`);
`elapsedAfter pass` is the wall-clock time observed right after pass `pass`;
`cats pass` is the catalog state the pass observes.  The returned list
records the `LOG_WARNING` emissions `(pass, elapsed)`. -/
def collectLoopAux (ctx : ScanCtx) (cats : Nat → Catalog) (q : List QueryElement)
    (timeout : Int) (elapsedAfter : Nat → Int) :
    Nat → Nat → PrevSets → LoopOutcome × List (Nat × Int)
  | 0, _, _ => (.outOfFuel, [])
  | fuel + 1, pass, prev =>
    match runPass (cats pass) ctx q with
    | .error e => (.err e, [])
    | .ok st =>
      let res := checkConsistency st prev
      let elapsed := elapsedAfter pass
      if res.1 = false ∧ 2 ≤ pass ∧ 0 ≤ timeout ∧ timeout < elapsed then
        (.err (.cannotCollect pass elapsed), [])
      else
        let warns : List (Nat × Int) := if 2 ≤ pass then [(pass, elapsed)] else []
        if res.1 then
          (.ok (pass + 1) { st with consistent := true }, warns)
        else
          let rest := collectLoopAux ctx cats q timeout elapsedAfter fuel (pass + 1) res.2
          (rest.1, warns ++ rest.2)

/-- `BackupEntriesCollector::collectDatabasesAndTablesInfo`. -/
def collectDatabasesAndTablesInfo (ctx : ScanCtx) (cats : Nat → Catalog)
    (q : List QueryElement) (timeout : Int) (elapsedAfter : Nat → Int) (fuel : Nat) :
    LoopOutcome × List (Nat × Int) :=
  collectLoopAux ctx cats q timeout elapsedAfter fuel 0 ⟨none, none⟩

/-! ## Root path and entry emitters -/

/-- The settings fields the collector consumes from `BackupSettings`. -/
structure BackupSettings where
  host_id : String
  cluster_host_ids : List (List String)
  shard_num : Nat
  replica_num : Nat
  structure_only : Bool
deriving DecidableEq, Repr

/-- Modelled from the spec: `BackupSettings::Util::findShardNumAndReplicaNum`
is outside this source file; per the spec the shard/replica numbers are
"derived by looking up this host's identifier in the cluster's
host-to-identifier table".  The table is a list of shards, each a list of
replica host ids; the numbering follows the spec's concrete scenario
(a host at the second shard's first replica resolves to shard 1, replica 0). -/
def findShardNumAndReplicaNumAux (host_id : String) :
    List (List String) → Nat → Option (Nat × Nat)
  | [], _ => none
  | replicas :: rest, i =>
    match replicas.findIdx? (fun r => r = host_id) with
    | some j => some (i, j)
    | none => findShardNumAndReplicaNumAux host_id rest (i + 1)

/-- Modelled from the spec: see `findShardNumAndReplicaNumAux`. -/
def findShardNumAndReplicaNum (cluster_host_ids : List (List String)) (host_id : String) :
    Option (Nat × Nat) :=
  findShardNumAndReplicaNumAux host_id cluster_host_ids 0

/-- `BackupEntriesCollector::calculateRootPathInBackup` (lines 146-156):
the root starts as `"/"` and becomes `/shards/<shard_num>/replicas/<replica_num>`
when a host id is set.  (A host id absent from the table would make the
external lookup fail; the model keeps the initial `"/"` in that case.) -/
def calculateRootPathInBackup (settings : BackupSettings) : String :=
  if settings.host_id = "" then "/"
  else
    match findShardNumAndReplicaNum settings.cluster_host_ids settings.host_id with
    | some (shard_num, replica_num) =>
      pathAppend (pathAppend (pathAppend (pathAppend "/" "shards") (toString shard_num))
        "replicas") (toString replica_num)
    | none => "/"

/-- Backup entries are `(path, content-provider)` pairs; content providers
(`BackupEntryPtr`) are opaque to every property verified here and are
modelled as plain ids. -/
abbrev BackupEntryPair : Type := String × Nat

/-- `makeBackupEntriesForDatabasesDefs` (lines 443-457): one metadata entry
per collected database at `<root>/metadata/<escaped-new-db-name>.sql`.
The serialized rewritten definition is an opaque content provider. -/
def makeBackupEntriesForDatabasesDefs (ctx : ScanCtx)
    (database_infos : List (String × DatabaseInfo)) : List BackupEntryPair :=
  database_infos.map fun p =>
    let new_database_name := ctx.renaming_map.newDatabaseName p.1
    (pathAppend (pathAppend ctx.root_path_in_backup "metadata")
      (ctx.escape new_database_name ++ ".sql"), 0)

/-- `makeBackupEntriesForTablesDefs` (lines 460-484): one metadata entry per
collected table. -/
def makeBackupEntriesForTablesDefs (ctx : ScanCtx)
    (table_infos : List (TableKey × TableInfo)) : List BackupEntryPair :=
  table_infos.map fun p =>
    if p.1.is_temporary then
      let new_name := ctx.renaming_map.newTemporaryTableName p.1.name.table
      (pathAppend (pathAppend (pathAppend ctx.root_path_in_backup "temporary_tables")
        "metadata") (ctx.escape new_name ++ ".sql"), 0)
    else
      let new_name := ctx.renaming_map.newTableName p.1.name
      (pathAppend (pathAppend (pathAppend ctx.root_path_in_backup "metadata")
        (ctx.escape new_name.database)) (ctx.escape new_name.table ++ ".sql"), 0)

/-! ## Stages, the collector object and its mutators -/

/-- `BackupEntriesCollector::Stage`, in declaration order. -/
inductive Stage where
  | kPreparing
  | kFindingTables
  | kExtractingDataFromTables
  | kRunningPostTasks
  | kWritingBackup
  | kError
deriving DecidableEq, Repr

/-- `static_cast<int>(stage)`, following the declaration order. -/
def stageIndex : Stage → Nat
  | .kPreparing => 0
  | .kFindingTables => 1
  | .kExtractingDataFromTables => 2
  | .kRunningPostTasks => 3
  | .kWritingBackup => 4
  | .kError => 5

/-- `BackupEntriesCollector::toString(Stage)` (lines 41-53). -/
def stageText : Stage → String
  | .kPreparing => "Preparing"
  | .kFindingTables => "Finding tables"
  | .kExtractingDataFromTables => "Extracting data from tables"
  | .kRunningPostTasks => "Running post tasks"
  | .kWritingBackup => "Writing backup"
  | .kError => "Error"

/-- A deferred post-collecting task.  The C++ type is `std::function<void()>`;
what matters to the verified properties is which further tasks a task
enqueues while it runs, so a task is a rose tree of ids. -/
inductive PostTask where
  | mk (taskId : Nat) (spawns : List PostTask)

def PostTask.taskId : PostTask → Nat
  | .mk i _ => i

def PostTask.spawns : PostTask → List PostTask
  | .mk _ s => s

/-- Total number of tasks in a queue, counting transitive spawns. -/
def sizeListPT : List PostTask → Nat
  | [] => 0
  | .mk _ spawns :: ts => 1 + sizeListPT spawns + sizeListPT ts

theorem sizeListPT_append (xs ys : List PostTask) :
    sizeListPT (xs ++ ys) = sizeListPT xs + sizeListPT ys := by
  induction xs with
  | nil => simp [sizeListPT]
  | cons t ts ih =>
    cases t with
    | mk i spawns => simp [sizeListPT, ih]; omega

/-- `BackupEntriesCollector::runPostCollectingTasks` (lines 530-539): pop the
front task, run it (which enqueues its spawned tasks at the back), repeat
until the queue is empty.  Returns the execution trace of task ids. -/
def runPostCollectingTasks : List PostTask → List Nat
  | [] => []
  | t :: rest => t.taskId :: runPostCollectingTasks (rest ++ t.spawns)
termination_by q => sizeListPT q
decreasing_by
  cases t with
  | mk i spawns =>
    simp [sizeListPT_append, sizeListPT, PostTask.spawns]
    omega

/-- All ids reachable from a task queue (the tasks together with their
transitive spawns). -/
def allIdsList : List PostTask → List Nat
  | [] => []
  | .mk i spawns :: ts => i :: (allIdsList spawns ++ allIdsList ts)

/-- The mutable state of a `BackupEntriesCollector` used by the staged
pipeline: stage, entry list and post-task queue. -/
structure Collector where
  current_stage : Stage
  backup_entries : List BackupEntryPair
  post_collecting_tasks : List PostTask

/-- `BackupEntriesCollector::addBackupEntry` (lines 501-506); the second
component reports the thrown exception, in which case the collector is
returned unchanged. -/
def addBackupEntry (c : Collector) (file_name : String) (backup_entry : Nat) :
    Collector × Option BackupError :=
  if c.current_stage = Stage.kWritingBackup then
    (c, some (.logicalError "Adding backup entries is not allowed"))
  else
    ({ c with backup_entries := c.backup_entries ++ [(file_name, backup_entry)] }, none)

/-- `BackupEntriesCollector::addBackupEntries` (lines 508-520). -/
def addBackupEntries (c : Collector) (backup_entries_ : List BackupEntryPair) :
    Collector × Option BackupError :=
  if c.current_stage = Stage.kWritingBackup then
    (c, some (.logicalError "Adding backup entries is not allowed"))
  else
    ({ c with backup_entries := c.backup_entries ++ backup_entries_ }, none)

/-- `BackupEntriesCollector::addPostCollectingTask` (lines 522-527). -/
def addPostCollectingTask (c : Collector) (task : PostTask) :
    Collector × Option BackupError :=
  if c.current_stage = Stage.kWritingBackup then
    (c, some (.logicalError "Adding post tasks is not allowed"))
  else
    ({ c with post_collecting_tasks := c.post_collecting_tasks ++ [task] }, none)

/-! ## The staged pipeline (`getBackupEntries` / `setStage`) -/

/-- A call into the coordination service (`IBackupCoordination`): either a
stage barrier (`syncStage`, which waits for `all_hosts` up to `timeout`) or
an error broadcast (`syncStageError`, which does not wait). -/
inductive CoordEvent where
  | stageSync (host : String) (stage : Nat) (all_hosts : List String) (timeout : Int)
  | stageError (host : String) (message : String)
deriving DecidableEq, Repr

/-- Modelled from the spec: `BackupSettings::Util::filterHostIDs` is outside
this source file; per the spec the host set passed to the barrier is "the
subset of the cluster's hosts relevant to this backup's shard/replica scope".
The exact filtering is unspecified there, so the model takes the full cluster
host list (the improper subset); no verified property inspects it. -/
def filterHostIDs (cluster_host_ids : List (List String)) (_shard_num _replica_num : Nat) :
    List String :=
  cluster_host_ids.flatten

/-- The message `getCurrentExceptionMessage(false)` would produce; only the
`LOGICAL_ERROR` texts are taken verbatim from the source. -/
def errorMessage : BackupError → String
  | .logicalError message => message
  | .cannotCollect pass elapsed =>
    "Cannot collect tables and databases to make a backup (pass #" ++ toString pass
      ++ ", elapsed " ++ toString elapsed ++ ")"
  | .requiredTableMissing name _ => "Table " ++ name.database ++ "." ++ name.table ++ " not found"
  | .tableDropped name => "Table " ++ name.database ++ "." ++ name.table ++ " is dropped"
  | .requiredDatabaseMissing name => "Database " ++ name ++ " not found"
  | .databaseDropped name => "Database " ++ name ++ " is dropped"
  | .syncFailed stage => "Stage barrier failed at stage " ++ toString stage
  | .backupDataFailed key => "Backup of table " ++ key.name.table ++ " failed"

/-- The external world of one `getBackupEntries` run: query, settings,
catalog schedule, clocks and the outcomes of the external calls. -/
structure PipelineWorld where
  settings : BackupSettings
  query : List QueryElement
  renaming_map : RenamingMap
  escape : String → String
  cats : Nat → Catalog
  timeout : Int
  elapsedAfter : Nat → Int
  fuel : Nat
  syncOk : Stage → Bool
  syncErrorOk : Bool
  backupData : TableKey → TableInfo → Except BackupError (List BackupEntryPair × List PostTask)

/-- `BackupEntriesCollector::setStage` (lines 123-142): set `current_stage`,
then either broadcast the error (without waiting) or run the stage barrier.
Returns the updated collector, the emitted coordination call and the
exception the coordination service threw, if any. -/
def setStage (w : PipelineWorld) (c : Collector) (new_stage : Stage)
    (error_message : String) : Collector × List CoordEvent × Option BackupError :=
  let c2 := { c with current_stage := new_stage }
  if new_stage = Stage.kError then
    (c2, [.stageError w.settings.host_id error_message],
      if w.syncErrorOk then none else some (.syncFailed (stageIndex new_stage)))
  else
    let all_hosts := filterHostIDs w.settings.cluster_host_ids w.settings.shard_num
      w.settings.replica_num
    (c2, [.stageSync w.settings.host_id (stageIndex new_stage) all_hosts w.timeout],
      if w.syncOk new_stage then none else some (.syncFailed (stageIndex new_stage)))

/-- Result of `getBackupEntries`: the entry list, a propagated exception, or
the fuel artifact (`diverged` = the fixed-point scan would still be
iterating). -/
inductive PipeResult where
  | ok (entries : List BackupEntryPair)
  | err (e : BackupError)
  | diverged
deriving DecidableEq, Repr

/-- `makeBackupEntriesForTablesData` (lines 486-499): nothing when the backup
is structure-only, otherwise each table's storage appends its data entries
and may enqueue post-collecting tasks. -/
def makeBackupEntriesForTablesData (w : PipelineWorld) :
    List (TableKey × TableInfo) → Collector → Except BackupError Collector
  | [], c => .ok c
  | (key, table_info) :: rest, c =>
    match w.backupData key table_info with
    | .error e => .error e
    | .ok res =>
      makeBackupEntriesForTablesData w rest
        { c with backup_entries := c.backup_entries ++ res.1,
                 post_collecting_tasks := c.post_collecting_tasks ++ res.2 }

/-- The `try` body of `getBackupEntries` (lines 75-109). -/
def pipelineBody (w : PipelineWorld) (c : Collector) :
    PipeResult × Collector × List CoordEvent :=
  -- getBackupEntries() must not be called multiple times.
  if c.current_stage ≠ Stage.kPreparing then
    (.err (.logicalError "Already making backup entries"), c, [])
  else
    let root_path_in_backup := calculateRootPathInBackup w.settings
    let ctx : ScanCtx := ⟨w.renaming_map, w.escape, root_path_in_backup⟩
    -- setStage(Stage::kFindingTables)
    let s1 := setStage w c Stage.kFindingTables ""
    let c := s1.1
    let evs := s1.2.1
    match s1.2.2 with
    | some e => (.err e, c, evs)
    | none =>
      match collectDatabasesAndTablesInfo ctx w.cats w.query w.timeout w.elapsedAfter w.fuel with
      | (.err e, _) => (.err e, c, evs)
      | (.outOfFuel, _) => (.diverged, c, evs)
      | (.ok _ st, _) =>
        let c := { c with backup_entries := c.backup_entries
          ++ makeBackupEntriesForDatabasesDefs ctx st.database_infos
          ++ makeBackupEntriesForTablesDefs ctx st.table_infos }
        -- setStage(Stage::kExtractingDataFromTables)
        let s2 := setStage w c Stage.kExtractingDataFromTables ""
        let c := s2.1
        let evs := evs ++ s2.2.1
        match s2.2.2 with
        | some e => (.err e, c, evs)
        | none =>
          match (if w.settings.structure_only then .ok c
                 else makeBackupEntriesForTablesData w st.table_infos c :
                   Except BackupError Collector) with
          | .error e => (.err e, c, evs)
          | .ok c =>
            -- setStage(Stage::kRunningPostTasks)
            let s3 := setStage w c Stage.kRunningPostTasks ""
            let c := s3.1
            let evs := evs ++ s3.2.1
            match s3.2.2 with
            | some e => (.err e, c, evs)
            | none =>
              -- runPostCollectingTasks(); its execution order is verified
              -- separately, here only its state effect (an emptied queue)
              -- is kept.
              let c := { c with post_collecting_tasks := [] }
              -- setStage(Stage::kWritingBackup)
              let s4 := setStage w c Stage.kWritingBackup ""
              let c := s4.1
              let evs := evs ++ s4.2.1
              match s4.2.2 with
              | some e => (.err e, c, evs)
              | none => (.ok c.backup_entries, c, evs)

/-- `BackupEntriesCollector::getBackupEntries` (lines 73-121) with its
`catch` block: on any exception, attempt `setStage(kError, message)` (whose
own failure is swallowed) and rethrow the original exception. -/
def getBackupEntries (w : PipelineWorld) (c : Collector) :
    PipeResult × Collector × List CoordEvent :=
  match pipelineBody w c with
  | (.err e, c2, evs) =>
    let s := setStage w c2 Stage.kError (errorMessage e)
    (.err e, s.1, evs ++ s.2.1)
  | other => other

/-! ## Path-prefix helpers -/

/-- `beginsWith pfx s` : the string `s` begins with the prefix `pfx`. -/
def beginsWith (pfx s : String) : Prop :=
  ∃ suffix, s = pfx ++ suffix

theorem beginsWith_append (pfx s : String) : beginsWith pfx (pfx ++ s) :=
  ⟨s, rfl⟩

theorem beginsWith_trans {a b c : String} (h1 : beginsWith a b) (h2 : beginsWith b c) :
    beginsWith a c := by
  obtain ⟨s1, rfl⟩ := h1
  obtain ⟨s2, rfl⟩ := h2
  exact ⟨s1 ++ s2, String.append_assoc a s1 s2⟩

theorem pathAppend_beginsWith (p c : String) (hp : p ≠ "") :
    beginsWith p (pathAppend p c) := by
  unfold pathAppend
  rw [if_neg hp]
  split
  · exact ⟨c, rfl⟩
  · exact ⟨"/" ++ c, String.append_assoc p "/" c⟩

/-! ## Post-collecting task queue: order and completeness -/

theorem allIdsList_append (xs ys : List PostTask) :
    allIdsList (xs ++ ys) = allIdsList xs ++ allIdsList ys := by
  induction xs with
  | nil => simp [allIdsList]
  | cons t ts ih =>
    cases t with
    | mk i spawns => simp [allIdsList, ih]

theorem runPostCollectingTasks_rounds (xs ys : List PostTask) :
    runPostCollectingTasks (xs ++ ys)
      = xs.map PostTask.taskId
        ++ runPostCollectingTasks (ys ++ xs.flatMap PostTask.spawns) := by
  induction xs generalizing ys with
  | nil => simp
  | cons t ts ih =>
    cases t with
    | mk i spawns =>
      rw [List.cons_append, runPostCollectingTasks]
      rw [show (ts ++ ys) ++ PostTask.spawns (.mk i spawns) = ts ++ (ys ++ spawns) by
        simp [PostTask.spawns]]
      rw [ih (ys ++ spawns)]
      simp [PostTask.taskId, PostTask.spawns, List.append_assoc]

theorem runPostCollectingTasks_perm :
    ∀ q : List PostTask, (runPostCollectingTasks q).Perm (allIdsList q)
  | [] => by simp [runPostCollectingTasks, allIdsList]
  | PostTask.mk i spawns :: rest => by
    rw [runPostCollectingTasks]
    have ih := runPostCollectingTasks_perm (rest ++ PostTask.spawns (.mk i spawns))
    rw [allIdsList_append] at ih
    simp only [PostTask.taskId, PostTask.spawns] at ih ⊢
    have h2 := (ih.trans (List.perm_append_comm)).cons i
    simpa [allIdsList] using h2
termination_by q => sizeListPT q
decreasing_by
  simp [sizeListPT_append, sizeListPT, PostTask.spawns]
  omega

/-- C9: draining the post-collection task queue executes tasks strictly in
enqueue order — all tasks currently enqueued run (in order) before any of the
tasks they spawn, which are appended in enqueue order — and every task
reachable from the queue (including tasks enqueued by tasks during their own
execution) has run exactly by the time the drain completes. -/
theorem runPostCollectingTasks_order (q : List PostTask) :
    runPostCollectingTasks q
        = q.map PostTask.taskId ++ runPostCollectingTasks (q.flatMap PostTask.spawns)
    ∧ (runPostCollectingTasks q).Perm (allIdsList q) := by
  constructor
  · have h := runPostCollectingTasks_rounds q []
    simpa using h
  · exact runPostCollectingTasks_perm q

/-! ## Sealing: mutators after the final stage -/

/-- C6: once the pipeline has reached its final stage (`kWritingBackup`),
`addBackupEntry` and `addBackupEntries` fail with the `LOGICAL_ERROR`
protocol-misuse failure and the collector — in particular its previously
collected entry list — is left exactly unchanged. -/
theorem addBackupEntry_rejected_when_writing (c : Collector) (file_name : String)
    (backup_entry : Nat) (backup_entries_ : List BackupEntryPair)
    (h : c.current_stage = Stage.kWritingBackup) :
    addBackupEntry c file_name backup_entry
        = (c, some (.logicalError "Adding backup entries is not allowed"))
    ∧ addBackupEntries c backup_entries_
        = (c, some (.logicalError "Adding backup entries is not allowed")) := by
  simp [addBackupEntry, addBackupEntries, h]

theorem addBackupEntry_rejected_when_writing_witness :
    addBackupEntry ⟨Stage.kWritingBackup, [("a.sql", 1)], []⟩ "b.sql" 2
        = (⟨Stage.kWritingBackup, [("a.sql", 1)], []⟩,
            some (.logicalError "Adding backup entries is not allowed"))
    ∧ addBackupEntries ⟨Stage.kWritingBackup, [("a.sql", 1)], []⟩ [("c.sql", 3)]
        = (⟨Stage.kWritingBackup, [("a.sql", 1)], []⟩,
            some (.logicalError "Adding backup entries is not allowed")) :=
  addBackupEntry_rejected_when_writing _ "b.sql" 2 [("c.sql", 3)] rfl

/-- C10: `kWritingBackup` is the only stage in which `addBackupEntry`,
`addBackupEntries` and `addPostCollectingTask` are rejected; in every other
stage — including the terminal `kError` stage — they succeed and append to
the entry list or the task queue. -/
theorem mutators_only_rejected_when_writing (c : Collector) (file_name : String)
    (backup_entry : Nat) (backup_entries_ : List BackupEntryPair) (task : PostTask) :
    ((addBackupEntry c file_name backup_entry).2 = none
        ↔ c.current_stage ≠ Stage.kWritingBackup)
    ∧ ((addBackupEntries c backup_entries_).2 = none
        ↔ c.current_stage ≠ Stage.kWritingBackup)
    ∧ ((addPostCollectingTask c task).2 = none
        ↔ c.current_stage ≠ Stage.kWritingBackup)
    ∧ (c.current_stage ≠ Stage.kWritingBackup →
        addBackupEntry c file_name backup_entry
            = ({ c with backup_entries := c.backup_entries ++ [(file_name, backup_entry)] },
                none)
        ∧ addBackupEntries c backup_entries_
            = ({ c with backup_entries := c.backup_entries ++ backup_entries_ }, none)
        ∧ addPostCollectingTask c task
            = ({ c with post_collecting_tasks := c.post_collecting_tasks ++ [task] }, none)) := by
  by_cases h : c.current_stage = Stage.kWritingBackup <;>
    simp [addBackupEntry, addBackupEntries, addPostCollectingTask, h]

theorem mutators_only_rejected_when_writing_witness :
    (addBackupEntry ⟨Stage.kError, [], []⟩ "a.sql" 1).2 = none
    ∧ addPostCollectingTask ⟨Stage.kError, [], []⟩ (.mk 7 [])
        = (⟨Stage.kError, [], [PostTask.mk 7 []]⟩, none) := by
  have h := mutators_only_rejected_when_writing ⟨Stage.kError, [], []⟩ "a.sql" 1 [] (.mk 7 [])
  have hne : (⟨Stage.kError, [], []⟩ : Collector).current_stage ≠ Stage.kWritingBackup := by
    intro hh
    cases hh
  exact ⟨h.1.mpr hne, (h.2.2.2 hne).2.2⟩

/-! ## Root path in backup (C3) -/

theorem append_ne_empty_left (a b : String) (ha : a ≠ "") : a ++ b ≠ "" := by
  intro h
  apply ha
  have hd := congrArg String.data h
  rw [String.data_append] at hd
  exact String.ext (List.append_eq_nil.1 hd).1

theorem pathAppend_ne_empty (p c : String) (hp : p ≠ "") : pathAppend p c ≠ "" := by
  unfold pathAppend
  rw [if_neg hp]
  split
  · exact append_ne_empty_left p c hp
  · exact append_ne_empty_left (p ++ "/") c (append_ne_empty_left p "/" hp)

theorem pathAppend_no_slash (p c : String) (hp : p ≠ "")
    (hs : p.data.getLast? ≠ some (Char.ofNat 47)) :
    pathAppend p c = p ++ "/" ++ c := by
  unfold pathAppend
  rw [if_neg hp, if_neg hs]

/-- C3 (amended): the in-backup root path is `"/"` — not the empty string —
when the host identifier is empty (not part of a clustered backup), and
otherwise `"/shards/<shard>/replicas/<replica>"` from looking up the host id
in the cluster host-identifier table; for a host resolving to shard 1,
replica 0, every emitted metadata entry path and every table data path
begins with the prefix `"/shards/1/replicas/0/"` (with a leading slash). -/
theorem calculateRootPathInBackup_spec (settings : BackupSettings)
    (hhost : settings.host_id ≠ "")
    (hfind : findShardNumAndReplicaNum settings.cluster_host_ids settings.host_id
      = some (1, 0)) :
    calculateRootPathInBackup settings = "/shards/1/replicas/0"
    ∧ (∀ ctx : ScanCtx, ctx.root_path_in_backup = "/shards/1/replicas/0" →
        (∀ database_infos, ∀ p ∈ makeBackupEntriesForDatabasesDefs ctx database_infos,
          beginsWith "/shards/1/replicas/0/" p.1)
        ∧ (∀ table_infos, ∀ p ∈ makeBackupEntriesForTablesDefs ctx table_infos,
          beginsWith "/shards/1/replicas/0/" p.1)
        ∧ (∀ table_name is_temporary_table,
          beginsWith "/shards/1/replicas/0/" (tableDataPath ctx table_name is_temporary_table)))
    ∧ (∀ s2 : BackupSettings, s2.host_id = "" → calculateRootPathInBackup s2 = "/") := by
  have hroot : calculateRootPathInBackup settings = "/shards/1/replicas/0" := by
    unfold calculateRootPathInBackup
    rw [if_neg hhost, hfind]
    rfl
  refine ⟨hroot, ?_, ?_⟩
  · intro ctx hctx
    have hb : ∀ c : String, beginsWith "/shards/1/replicas/0/"
        (pathAppend ctx.root_path_in_backup c) := by
      intro c
      rw [hctx, pathAppend_no_slash _ _ (by decide) (by decide)]
      exact ⟨c, String.append_assoc "/shards/1/replicas/0" "/" c⟩
    have hne1 : ctx.root_path_in_backup ≠ "" := by
      rw [hctx]
      decide
    have hb2 : ∀ c c2 : String, beginsWith "/shards/1/replicas/0/"
        (pathAppend (pathAppend ctx.root_path_in_backup c) c2) := by
      intro c c2
      exact beginsWith_trans (hb c)
        (pathAppend_beginsWith _ c2 (pathAppend_ne_empty _ _ hne1))
    have hb3 : ∀ c c2 c3 : String, beginsWith "/shards/1/replicas/0/"
        (pathAppend (pathAppend (pathAppend ctx.root_path_in_backup c) c2) c3) := by
      intro c c2 c3
      exact beginsWith_trans (hb2 c c2)
        (pathAppend_beginsWith _ c3
          (pathAppend_ne_empty _ _ (pathAppend_ne_empty _ _ hne1)))
    refine ⟨?_, ?_, ?_⟩
    · intro database_infos p hp
      simp only [makeBackupEntriesForDatabasesDefs, List.mem_map] at hp
      obtain ⟨q, _, rfl⟩ := hp
      exact hb2 _ _
    · intro table_infos p hp
      simp only [makeBackupEntriesForTablesDefs, List.mem_map] at hp
      obtain ⟨q, _, rfl⟩ := hp
      by_cases ht : q.1.is_temporary = true <;> simp only [ht, if_true, Bool.false_eq_true,
        if_false]
      · exact hb3 _ _ _
      · exact hb3 _ _ _
    · intro table_name is_temporary_table
      unfold tableDataPath
      by_cases ht : is_temporary_table = true <;> simp only [ht, if_true, Bool.false_eq_true,
        if_false]
      · exact hb3 _ _ _
      · exact hb3 _ _ _
  · intro s2 h2
    unfold calculateRootPathInBackup
    rw [if_pos h2]

theorem calculateRootPathInBackup_spec_witness :
    calculateRootPathInBackup ⟨"h", [["x"], ["h", "y"]], 2, 1, false⟩ = "/shards/1/replicas/0"
    ∧ beginsWith "/shards/1/replicas/0/"
        (tableDataPath ⟨⟨fun s => s, fun n => n, fun s => s⟩, fun s => s,
          "/shards/1/replicas/0"⟩ ⟨"d", "t"⟩ false) := by
  have h := calculateRootPathInBackup_spec ⟨"h", [["x"], ["h", "y"]], 2, 1, false⟩
    (by decide) (by decide)
  exact ⟨h.1, ((h.2.1 _ rfl).2.2 ⟨"d", "t"⟩ false)⟩

/-- C3 counterexample: with an empty host id the computed root path is `"/"`,
not the empty string; and in the claim's own scenario (host at shard 1,
replica 0) the emitted database-metadata entry path is
`"/shards/1/replicas/0/metadata/d.sql"`, which does not begin with the
claimed prefix `"shards/1/replicas/0/"` (the real prefix has a leading
slash). -/
theorem calculateRootPathInBackup_counterexample :
    calculateRootPathInBackup ⟨"", [], 0, 0, false⟩ ≠ ""
    ∧ (makeBackupEntriesForDatabasesDefs
        ⟨⟨fun s => s, fun n => n, fun s => s⟩, fun s => s, "/shards/1/replicas/0"⟩
        [("d", ⟨1, "d"⟩)]).map Prod.fst = ["/shards/1/replicas/0/metadata/d.sql"]
    ∧ ¬ beginsWith "shards/1/replicas/0/" "/shards/1/replicas/0/metadata/d.sql" := by
  refine ⟨by decide, by rfl, ?_⟩
  rintro ⟨suffix, hs⟩
  have hd := congrArg String.data hs
  rw [String.data_append] at hd
  have h0 := congrArg List.head? hd
  simp at h0

/-! ## Well-formed catalogs and the pass invariant

An unchanging catalog is *well formed* when it behaves the way the real
catalog behaves in the absence of concurrent mutation: enumerations carry no
duplicate names (C++ maps), database names are nonempty, and every
retrievable definition embeds exactly the identity it was retrieved under. -/

def WellFormedDb (database_name : String) (d : CatDatabase) : Prop :=
  (d.create_database_query = none ∨ d.create_database_query = some database_name)
  ∧ (d.tables.map Prod.fst).Nodup
  ∧ ∀ p ∈ d.tables, p.2.create_table_query = none
      ∨ p.2.create_table_query = some ⟨database_name, p.1, false⟩

def WellFormed (cat : Catalog) : Prop :=
  (cat.databases.map Prod.fst).Nodup
  ∧ "" ∉ cat.databases.map Prod.fst
  ∧ (∀ p ∈ cat.databases, WellFormedDb p.1 p.2)
  ∧ (cat.temporary_tables.map Prod.fst).Nodup
  ∧ ∀ p ∈ cat.temporary_tables, p.2.create_table_query = none
      ∨ p.2.create_table_query = some ⟨"", p.1, true⟩

instance (database_name : String) (d : CatDatabase) :
    Decidable (WellFormedDb database_name d) := by
  unfold WellFormedDb
  infer_instance

instance (cat : Catalog) : Decidable (WellFormed cat) := by
  unfold WellFormed
  infer_instance

/-- The required (throw-if-not-found) lookups of one query element succeed
against the catalog. -/
def RequiredOkElem (cat : Catalog) : QueryElement → Bool
  | .table database_name table_name _ =>
    (tryCollect cat ⟨⟨database_name, table_name⟩, false⟩).isSome
  | .temporaryTable table_name _ =>
    (tryCollect cat ⟨⟨"", table_name⟩, true⟩).isSome
  | .database database_name _ =>
    match lookupA cat.databases database_name with
    | some d => d.create_database_query.isSome
    | none => false
  | .all _ _ => true

def RequiredOk (cat : Catalog) (q : List QueryElement) : Bool :=
  q.all (RequiredOkElem cat)

/-- What a `table_infos` entry certifies about an unchanging catalog: the key
still resolves to exactly the recorded identities and definition, and
temporary keys carry an empty database name. -/
def TableMatches (cat : Catalog) (k : TableKey) (ti : TableInfo) : Prop :=
  tryCollect cat k = some (ti.database, ti.storage, ti.create_table_query)
  ∧ (k.is_temporary = true → k.name.database = "")

/-- What a `database_infos` entry certifies about an unchanging catalog. -/
def DbMatches (cat : Catalog) (n : String) (di : DatabaseInfo) : Prop :=
  ∃ d, lookupA cat.databases n = some d ∧ di.database = d.dbId
    ∧ d.create_database_query = some di.create_database_query

/-- Invariant maintained by a pass over an unchanging, well-formed catalog:
the pass stays consistent and every collected entry matches the catalog. -/
def Inv (cat : Catalog) (st : ScanState) : Prop :=
  st.consistent = true
  ∧ (st.table_infos.map Prod.fst).Nodup
  ∧ (st.database_infos.map Prod.fst).Nodup
  ∧ (∀ p ∈ st.table_infos, TableMatches cat p.1 p.2)
  ∧ (∀ p ∈ st.database_infos, DbMatches cat p.1 p.2)

theorem tryCollect_eq (cat : Catalog) (name : QualifiedTableName) (temp : Bool)
    {database : Nat} {s : StorageInfo}
    (hres : resolveDatabaseAndTable cat name temp = some (database, s)) :
    tryCollect cat ⟨name, temp⟩ =
      match s.create_table_query with
      | some c => some (database, s.storageId, c)
      | none => none := by
  unfold tryCollect
  rw [show (⟨name, temp⟩ : TableKey).name = name from rfl,
    show (⟨name, temp⟩ : TableKey).is_temporary = temp from rfl, hres]

theorem wf_create_fields {cat : Catalog} (hwf : WellFormed cat)
    {name : QualifiedTableName} {temp : Bool} {database : Nat} {s : StorageInfo}
    {c : CreateTableQuery}
    (hres : resolveDatabaseAndTable cat name temp = some (database, s))
    (hc : s.create_table_query = some c)
    (htemp : temp = true → name.database = "") :
    c.database = name.database ∧ c.table = name.table ∧ c.temporary = temp := by
  unfold resolveDatabaseAndTable at hres
  by_cases ht : temp = true
  · rw [ht] at hres
    simp only [if_true] at hres
    match hlook : lookupA cat.temporary_tables name.table with
    | none => rw [hlook] at hres; cases hres
    | some s2 =>
      rw [hlook] at hres
      cases hres
      have hmem := lookupA_mem hlook
      rcases hwf.2.2.2.2 _ hmem with h | h
      · rw [h] at hc; cases hc
      · rw [h] at hc
        cases hc
        exact ⟨(htemp ht).symm, rfl, ht.symm⟩
  · have ht2 : temp = false := by
      cases temp
      · rfl
      · exact absurd rfl ht
    rw [ht2] at hres
    simp only [Bool.false_eq_true, if_false] at hres
    match hdb : lookupA cat.databases name.database with
    | none => rw [hdb] at hres; cases hres
    | some d =>
      have hres2 : (match lookupA d.tables name.table with
          | some s2 => some (d.dbId, s2)
          | none => (none : Option (Nat × StorageInfo))) = some (database, s) := by
        rw [hdb] at hres
        exact hres
      match hlook : lookupA d.tables name.table with
      | none => rw [hlook] at hres2; cases hres2
      | some s2 =>
        rw [hlook] at hres2
        cases hres2
        have hdbmem := lookupA_mem hdb
        have htmem := lookupA_mem hlook
        rcases (hwf.2.2.1 _ hdbmem).2.2 _ htmem with h | h
        · rw [h] at hc; cases hc
        · rw [h] at hc
          cases hc
          exact ⟨rfl, rfl, ht2.symm⟩

theorem tryCollect_some_elim {cat : Catalog} {k : TableKey} {database storageId : Nat}
    {c : CreateTableQuery}
    (h : tryCollect cat k = some (database, storageId, c)) :
    ∃ s, resolveDatabaseAndTable cat k.name k.is_temporary = some (database, s)
      ∧ s.storageId = storageId ∧ s.create_table_query = some c := by
  unfold tryCollect at h
  match hres : resolveDatabaseAndTable cat k.name k.is_temporary with
  | none =>
    simp only [hres] at h
    exact Option.noConfusion h
  | some (db2, s) =>
    simp only [hres] at h
    match hc : s.create_table_query with
    | none =>
      simp only [hc] at h
      exact Option.noConfusion h
    | some c2 =>
      simp only [hc, Option.some.injEq, Prod.mk.injEq] at h
      obtain ⟨h1, h2, h3⟩ := h
      exact ⟨s, by rw [h1], h2, by rw [hc, h3]⟩

theorem tryCollect_isSome_elim {cat : Catalog} {k : TableKey}
    (h : (tryCollect cat k).isSome = true) :
    ∃ database s c, resolveDatabaseAndTable cat k.name k.is_temporary = some (database, s)
      ∧ s.create_table_query = some c := by
  match h2 : tryCollect cat k with
  | none => rw [h2] at h; cases h
  | some (database, storageId, c) =>
    obtain ⟨s, hres, _, hc⟩ := tryCollect_some_elim h2
    exact ⟨database, s, c, hres, hc⟩

theorem resolve_false_elim {cat : Catalog} {name : QualifiedTableName} {database : Nat}
    {s : StorageInfo}
    (h : resolveDatabaseAndTable cat name false = some (database, s)) :
    ∃ d, lookupA cat.databases name.database = some d ∧ d.dbId = database
      ∧ lookupA d.tables name.table = some s := by
  unfold resolveDatabaseAndTable at h
  simp only [Bool.false_eq_true, if_false] at h
  match hdb : lookupA cat.databases name.database with
  | none =>
    simp only [hdb] at h
    exact Option.noConfusion h
  | some d =>
    simp only [hdb] at h
    match hlook : lookupA d.tables name.table with
    | none =>
      simp only [hlook] at h
      exact Option.noConfusion h
    | some s2 =>
      simp only [hlook, Option.some.injEq, Prod.mk.injEq] at h
      exact ⟨d, rfl, h.1, by rw [hlook, h.2]⟩

/-- Characterization of `collectTableInfo` when resolution and definition
retrieval succeed (in either the required or the best-effort branch). -/
theorem collectTableInfo_eq_of_hit {cat : Catalog} {ctx : ScanCtx} {st : ScanState}
    {name : QualifiedTableName} {temp : Bool} {parts : Option (List String)} {req : Bool}
    {database : Nat} {s : StorageInfo} {c : CreateTableQuery}
    (hres : resolveDatabaseAndTable cat name temp = some (database, s))
    (hc : s.create_table_query = some c) :
    collectTableInfo cat ctx st name temp parts req
      = .ok (collectResolvedTable ctx st name temp parts database s.storageId c) := by
  unfold collectTableInfo
  cases req <;> simp [hres, hc]

/-- Characterization of the best-effort branch of `collectTableInfo` when the
table cannot be resolved or its definition cannot be retrieved. -/
theorem collectTableInfo_eq_of_miss {cat : Catalog} {ctx : ScanCtx} {st : ScanState}
    {name : QualifiedTableName} {temp : Bool} {parts : Option (List String)}
    (hmiss : tryCollect cat ⟨name, temp⟩ = none) :
    collectTableInfo cat ctx st name temp parts false
      = .ok { st with consistent :=
          st.consistent && !((lookupA st.table_infos ⟨name, temp⟩).isSome) } := by
  unfold tryCollect at hmiss
  unfold collectTableInfo
  match hres : resolveDatabaseAndTable cat name temp with
  | none => simp [hres]
  | some (database, s) =>
    simp only [show (⟨name, temp⟩ : TableKey).name = name from rfl,
      show (⟨name, temp⟩ : TableKey).is_temporary = temp from rfl, hres] at hmiss
    match hc : s.create_table_query with
    | some c =>
      simp only [hc] at hmiss
      exact Option.noConfusion hmiss
    | none => simp [hres, hc]

/-- The key certified by `Inv` cannot be looked up in `table_infos` once the
catalog no longer yields it. -/
theorem not_in_table_infos_of_tryCollect_none {cat : Catalog} {st : ScanState}
    {k : TableKey} (hinv : Inv cat st) (hmiss : tryCollect cat k = none) :
    (lookupA st.table_infos k).isSome = false := by
  match hl : lookupA st.table_infos k with
  | none => rfl
  | some ti =>
    have hmem := lookupA_mem hl
    have hm := (hinv.2.2.2.1 _ hmem).1
    rw [hmiss] at hm
    cases hm

/-- Effect of `collectResolvedTable` over an unchanging well-formed catalog:
the cross-checks pass and the entry for the key is inserted/updated, its
partition list extended by the newly requested selectors. -/
theorem collectResolvedTable_eq {cat : Catalog} {ctx : ScanCtx} {st : ScanState}
    {name : QualifiedTableName} {temp : Bool} {parts : Option (List String)}
    {database : Nat} {s : StorageInfo} {c : CreateTableQuery}
    (hwf : WellFormed cat) (hinv : Inv cat st)
    (hres : resolveDatabaseAndTable cat name temp = some (database, s))
    (hc : s.create_table_query = some c)
    (htemp : temp = true → name.database = "") :
    collectResolvedTable ctx st name temp parts database s.storageId c
      = { st with table_infos := (insertA st.table_infos ⟨name, temp⟩
          ⟨database, s.storageId, true, c, tableDataPath ctx name temp,
            mergedParts ((lookupA st.table_infos ⟨name, temp⟩).elim none
              TableInfo.partitions) parts⟩) } := by
  have hf := wf_create_fields hwf hres hc htemp
  have htc : tryCollect cat ⟨name, temp⟩ = some (database, s.storageId, c) := by
    rw [tryCollect_eq cat name temp hres, hc]
  unfold collectResolvedTable
  rw [if_neg (by push_neg; exact ⟨hf.2.1, hf.2.2.symm, hf.1⟩)]
  match hl : lookupA st.table_infos ⟨name, temp⟩ with
  | some table_info =>
    have hm := (hinv.2.2.2.1 _ (lookupA_mem hl)).1
    rw [htc] at hm
    simp only [Option.some.injEq, Prod.mk.injEq] at hm
    obtain ⟨hdb, hst, hcr⟩ := hm
    simp only [hl, Option.elim]
    rw [if_neg (by push_neg; exact ⟨hdb.symm, hst.symm⟩)]
  | none =>
    simp only [hl, Option.elim]

theorem collectResolvedTable_inv {cat : Catalog} {ctx : ScanCtx} {st : ScanState}
    {name : QualifiedTableName} {temp : Bool} {parts : Option (List String)}
    {database : Nat} {s : StorageInfo} {c : CreateTableQuery}
    (hwf : WellFormed cat) (hinv : Inv cat st)
    (hres : resolveDatabaseAndTable cat name temp = some (database, s))
    (hc : s.create_table_query = some c)
    (htemp : temp = true → name.database = "") :
    Inv cat (collectResolvedTable ctx st name temp parts database s.storageId c) := by
  rw [collectResolvedTable_eq hwf hinv hres hc htemp]
  have htc : tryCollect cat ⟨name, temp⟩ = some (database, s.storageId, c) := by
    rw [tryCollect_eq cat name temp hres, hc]
  refine ⟨hinv.1, nodup_keys_insertA _ _ hinv.2.1, hinv.2.2.1, ?_, hinv.2.2.2.2⟩
  intro p hp
  rcases mem_insertA hp with h | h
  · subst h
    exact ⟨htc, htemp⟩
  · exact hinv.2.2.2.1 _ h

theorem collectTableInfo_inv {cat : Catalog} {ctx : ScanCtx} {st st2 : ScanState}
    {name : QualifiedTableName} {temp : Bool} {parts : Option (List String)} {req : Bool}
    (hwf : WellFormed cat) (hinv : Inv cat st)
    (htemp : temp = true → name.database = "")
    (h : collectTableInfo cat ctx st name temp parts req = .ok st2) :
    Inv cat st2 := by
  match htc : tryCollect cat ⟨name, temp⟩ with
  | some (database, storageId, c) =>
    obtain ⟨s, hres, hsid, hc⟩ := tryCollect_some_elim htc
    subst hsid
    rw [collectTableInfo_eq_of_hit hres hc] at h
    cases h
    exact collectResolvedTable_inv hwf hinv hres hc htemp
  | none =>
    have hns := not_in_table_infos_of_tryCollect_none hinv htc
    cases req
    · rw [collectTableInfo_eq_of_miss htc] at h
      cases h
      refine ⟨?_, hinv.2.1, hinv.2.2.1, hinv.2.2.2.1, hinv.2.2.2.2⟩
      simp [hns, hinv.1]
    · exfalso
      unfold tryCollect at htc
      unfold collectTableInfo at h
      match hres : resolveDatabaseAndTable cat name temp with
      | none =>
        rw [hres] at h
        simp at h
      | some (database, s) =>
        simp only [show (⟨name, temp⟩ : TableKey).name = name from rfl,
          show (⟨name, temp⟩ : TableKey).is_temporary = temp from rfl, hres] at htc
        match hc : s.create_table_query with
        | some c =>
          simp only [hc] at htc
          exact Option.noConfusion htc
        | none =>
          rw [hres] at h
          simp [hc] at h

theorem collectTableInfo_false_ok (cat : Catalog) (ctx : ScanCtx) (st : ScanState)
    (name : QualifiedTableName) (temp : Bool) (parts : Option (List String)) :
    ∃ st2, collectTableInfo cat ctx st name temp parts false = .ok st2 := by
  match htc : tryCollect cat ⟨name, temp⟩ with
  | some (database, storageId, c) =>
    obtain ⟨s, hres, hsid, hc⟩ := tryCollect_some_elim htc
    exact ⟨_, collectTableInfo_eq_of_hit hres hc⟩
  | none => exact ⟨_, collectTableInfo_eq_of_miss htc⟩

theorem insert_dbinfo_inv {cat : Catalog} {st : ScanState} {database_name : String}
    {d : CatDatabase} {cq : String} (hinv : Inv cat st)
    (hdb : lookupA cat.databases database_name = some d)
    (hcq : d.create_database_query = some cq) :
    Inv cat { st with database_infos := (insertA st.database_infos database_name
      ⟨d.dbId, cq⟩) } := by
  refine ⟨hinv.1, hinv.2.1, nodup_keys_insertA _ _ hinv.2.2.1, hinv.2.2.2.1, ?_⟩
  intro p hp
  rcases mem_insertA hp with h | h
  · subst h
    exact ⟨d, hdb, rfl, hcq⟩
  · exact hinv.2.2.2.2 _ h

theorem collectDatabaseTables_ok {cat : Catalog} {ctx : ScanCtx} {database_name : String}
    {except_tables : List (String × String)} (hwf : WellFormed cat) :
    ∀ (tables : List (String × StorageInfo)) (st : ScanState), Inv cat st →
      ∃ st2, collectDatabaseTables cat ctx database_name except_tables tables st = .ok st2
        ∧ Inv cat st2
  | [], st, hinv => ⟨st, rfl, hinv⟩
  | (tname, s0) :: rest, st, hinv => by
    unfold collectDatabaseTables
    by_cases hexc : (database_name, tname) ∈ except_tables
    · rw [if_pos hexc]
      exact collectDatabaseTables_ok hwf rest st hinv
    · rw [if_neg hexc]
      obtain ⟨stm, hm⟩ := collectTableInfo_false_ok cat ctx st ⟨database_name, tname⟩ false none
      have hinvm : Inv cat stm :=
        collectTableInfo_inv hwf hinv (fun h => Bool.noConfusion h) hm
      obtain ⟨st2, h2, hinv2⟩ := collectDatabaseTables_ok hwf rest stm hinvm
      exact ⟨st2, by simp only [hm, hinvm.1, if_true]; exact h2, hinv2⟩

theorem collectResolvedDatabase_ok {cat : Catalog} {ctx : ScanCtx} {st : ScanState}
    {database_name : String} {except_tables : List (String × String)}
    {d : CatDatabase} {cq : String}
    (hwf : WellFormed cat) (hinv : Inv cat st)
    (hdb : lookupA cat.databases database_name = some d)
    (hcq : d.create_database_query = some cq) :
    ∃ st2, collectResolvedDatabase cat ctx st database_name except_tables d cq = .ok st2
      ∧ Inv cat st2 := by
  have hwfdb := hwf.2.2.1 _ (lookupA_mem hdb)
  have hcqe : cq = database_name := by
    rcases hwfdb.1 with h | h
    · rw [h] at hcq
      exact Option.noConfusion hcq
    · rw [h] at hcq
      exact (Option.some.inj hcq).symm
  unfold collectResolvedDatabase
  rw [if_neg (fun hne => hne hcqe)]
  match hl : lookupA st.database_infos database_name with
  | some database_info =>
    obtain ⟨d2, hd2, hdbid, hcq2⟩ := hinv.2.2.2.2 _ (lookupA_mem hl)
    have hd2d : d = d2 := by
      rw [hdb] at hd2
      exact Option.some.inj hd2
    simp only [hl]
    rw [if_neg (fun hne => hne (by rw [hdbid, hd2d]))]
    exact collectDatabaseTables_ok hwf d.tables _ (insert_dbinfo_inv hinv hdb hcq)
  | none =>
    simp only [hl]
    exact collectDatabaseTables_ok hwf d.tables _ (insert_dbinfo_inv hinv hdb hcq)

theorem dbinfos_none_of_cat_none {cat : Catalog} {st : ScanState} {database_name : String}
    (hinv : Inv cat st) (h : lookupA cat.databases database_name = none) :
    (lookupA st.database_infos database_name).isSome = false := by
  match hl : lookupA st.database_infos database_name with
  | none => rfl
  | some di =>
    obtain ⟨d2, hd2, _, _⟩ := hinv.2.2.2.2 _ (lookupA_mem hl)
    rw [h] at hd2
    exact Option.noConfusion hd2

theorem dbinfos_none_of_create_none {cat : Catalog} {st : ScanState} {database_name : String}
    {d : CatDatabase} (hinv : Inv cat st)
    (hdb : lookupA cat.databases database_name = some d)
    (hcq : d.create_database_query = none) :
    (lookupA st.database_infos database_name).isSome = false := by
  match hl : lookupA st.database_infos database_name with
  | none => rfl
  | some di =>
    obtain ⟨d2, hd2, _, hcq2⟩ := hinv.2.2.2.2 _ (lookupA_mem hl)
    have hd2d : d = d2 := by
      rw [hdb] at hd2
      exact Option.some.inj hd2
    rw [← hd2d, hcq] at hcq2
    exact Option.noConfusion hcq2

theorem collectDatabaseInfo_false_ok {cat : Catalog} {ctx : ScanCtx} {st : ScanState}
    {database_name : String} {except_tables : List (String × String)}
    (hwf : WellFormed cat) (hinv : Inv cat st) :
    ∃ st2, collectDatabaseInfo cat ctx st database_name except_tables false = .ok st2
      ∧ Inv cat st2 := by
  unfold collectDatabaseInfo
  simp only [Bool.false_eq_true, if_false]
  match hdb : lookupA cat.databases database_name with
  | none =>
    simp only [hdb]
    have hns := dbinfos_none_of_cat_none hinv hdb
    refine ⟨_, rfl, ?_, hinv.2.1, hinv.2.2.1, hinv.2.2.2.1, hinv.2.2.2.2⟩
    simp [hns, hinv.1]
  | some d =>
    simp only [hdb]
    match hcq : d.create_database_query with
    | none =>
      simp only [hcq]
      have hns := dbinfos_none_of_create_none hinv hdb hcq
      refine ⟨_, rfl, ?_, hinv.2.1, hinv.2.2.1, hinv.2.2.2.1, hinv.2.2.2.2⟩
      simp [hns, hinv.1]
    | some cq =>
      simp only [hcq]
      exact collectResolvedDatabase_ok hwf hinv hdb hcq

theorem collectAllDatabasesList_ok {cat : Catalog} {ctx : ScanCtx}
    {except_databases : List String} {except_tables : List (String × String)}
    (hwf : WellFormed cat) :
    ∀ (dbs : List (String × CatDatabase)) (st : ScanState), Inv cat st →
      ∃ st2, collectAllDatabasesList cat ctx except_databases except_tables dbs st = .ok st2
        ∧ Inv cat st2
  | [], st, hinv => ⟨st, rfl, hinv⟩
  | (database_name, d) :: rest, st, hinv => by
    unfold collectAllDatabasesList
    by_cases hexc : database_name ∈ except_databases
    · rw [if_pos hexc]
      exact collectAllDatabasesList_ok hwf rest st hinv
    · rw [if_neg hexc]
      obtain ⟨stm, hm, hinvm⟩ :=
        @collectDatabaseInfo_false_ok cat ctx st database_name except_tables hwf hinv
      obtain ⟨st2, h2, hinv2⟩ :=
        @collectAllDatabasesList_ok cat ctx except_databases except_tables hwf rest stm hinvm
      exact ⟨st2, by simp only [hm, hinvm.1, if_true]; exact h2, hinv2⟩

theorem processElement_ok {cat : Catalog} {ctx : ScanCtx} {e : QueryElement}
    (hwf : WellFormed cat) (hreq : RequiredOkElem cat e = true) :
    ∀ st : ScanState, Inv cat st →
      ∃ st2, processElement cat ctx st e = .ok st2 ∧ Inv cat st2 := by
  intro st hinv
  match e with
  | .table database_name table_name partitions =>
    simp only [RequiredOkElem] at hreq
    obtain ⟨database, s, c, hres, hc⟩ := tryCollect_isSome_elim hreq
    simp only [processElement]
    exact ⟨_, collectTableInfo_eq_of_hit hres hc,
      collectResolvedTable_inv hwf hinv hres hc (fun h => Bool.noConfusion h)⟩
  | .temporaryTable table_name partitions =>
    simp only [RequiredOkElem] at hreq
    obtain ⟨database, s, c, hres, hc⟩ := tryCollect_isSome_elim hreq
    simp only [processElement]
    exact ⟨_, collectTableInfo_eq_of_hit hres hc,
      collectResolvedTable_inv hwf hinv hres hc (fun _ => rfl)⟩
  | .database database_name except_tables =>
    simp only [RequiredOkElem] at hreq
    match hdb : lookupA cat.databases database_name with
    | none => simp only [hdb] at hreq; cases hreq
    | some d =>
      simp only [hdb] at hreq
      match hcq : d.create_database_query with
      | none => rw [hcq] at hreq; cases hreq
      | some cq =>
        simp only [processElement]
        unfold collectDatabaseInfo
        simp only [hdb, hcq, if_true]
        exact collectResolvedDatabase_ok hwf hinv hdb hcq
  | .all except_databases except_tables =>
    simp only [processElement, collectAllDatabasesInfo]
    exact collectAllDatabasesList_ok hwf cat.databases st hinv

theorem runElements_ok {cat : Catalog} {ctx : ScanCtx} (hwf : WellFormed cat) :
    ∀ (q : List QueryElement) (st : ScanState), Inv cat st → RequiredOk cat q = true →
      ∃ st2, runElements cat ctx q st = .ok st2 ∧ Inv cat st2
  | [], st, hinv, _ => ⟨st, rfl, hinv⟩
  | e :: rest, st, hinv, hreq => by
    rw [RequiredOk, List.all_cons, Bool.and_eq_true] at hreq
    obtain ⟨stm, hm, hinvm⟩ := @processElement_ok cat ctx e hwf hreq.1 st hinv
    obtain ⟨st2, h2, hinv2⟩ := @runElements_ok cat ctx hwf rest stm hinvm hreq.2
    exact ⟨st2, by unfold runElements; simp only [hm]; exact h2, hinv2⟩

theorem runPass_ok {cat : Catalog} {ctx : ScanCtx} {q : List QueryElement}
    (hwf : WellFormed cat) (hreq : RequiredOk cat q = true) :
    ∃ st, runPass cat ctx q = .ok st ∧ Inv cat st := by
  have hinv0 : Inv cat ⟨[], [], true⟩ := by
    refine ⟨rfl, List.nodup_nil, List.nodup_nil, ?_, ?_⟩ <;> intro p hp <;> cases hp
  exact runElements_ok hwf q _ hinv0 hreq

theorem crossDbCheck_true {cat : Catalog} {st : ScanState}
    (hwf : WellFormed cat) (hinv : Inv cat st) : crossDbCheck st = true := by
  unfold crossDbCheck
  rw [List.all_eq_true]
  intro p hp
  obtain ⟨htc, htemp⟩ := hinv.2.2.2.1 _ hp
  by_cases ht : p.1.is_temporary = true
  · have hdb0 : p.1.name.database = "" := htemp ht
    match hl : lookupA st.database_infos p.1.name.database with
    | none => simp [hl]
    | some di =>
      exfalso
      obtain ⟨d2, hd2, _, _⟩ := hinv.2.2.2.2 _ (lookupA_mem hl)
      rw [hdb0] at hd2
      exact hwf.2.1 (lookupA_isSome_iff_mem_keys.1 (by rw [hd2]; rfl))
  · have ht2 : p.1.is_temporary = false := by
      cases h2 : p.1.is_temporary
      · rfl
      · exact absurd h2 ht
    obtain ⟨s, hres, hsid, hc⟩ := tryCollect_some_elim htc
    rw [ht2] at hres
    obtain ⟨d, hdb, hdbid, hlook⟩ := resolve_false_elim hres
    match hl : lookupA st.database_infos p.1.name.database with
    | none => simp [hl]
    | some di =>
      obtain ⟨d2, hd2, hdi, _⟩ := hinv.2.2.2.2 _ (lookupA_mem hl)
      have hd2d : d = d2 := by
        rw [hdb] at hd2
        exact Option.some.inj hd2
      simp only [hl, decide_eq_true_eq]
      rw [hdi, ← hd2d, hdbid]

theorem checkConsistency_no_prev {st : ScanState}
    (hc : st.consistent = true) (hcross : crossDbCheck st = true) :
    checkConsistency st ⟨none, none⟩
      = (false, ⟨some (databaseNames st), some (tableNames st)⟩) := by
  unfold checkConsistency
  rw [hc, hcross]
  simp

theorem checkConsistency_same {st : ScanState}
    (hc : st.consistent = true) (hcross : crossDbCheck st = true) :
    checkConsistency st ⟨some (databaseNames st), some (tableNames st)⟩
      = (true, ⟨some (databaseNames st), some (tableNames st)⟩) := by
  unfold checkConsistency
  rw [hc, hcross]
  simp

/-- Core two-pass convergence argument for an unchanging well-formed
catalog; shared by several verified properties. -/
theorem fixed_catalog_two_passes
    (ctx : ScanCtx) (cat : Catalog) (q : List QueryElement)
    (timeout : Int) (elapsedAfter : Nat → Int) (fuel : Nat)
    (hwf : WellFormed cat) (hreq : RequiredOk cat q = true) (hfuel : 2 ≤ fuel) :
    ∃ st, runPass cat ctx q = .ok st ∧ Inv cat st
      ∧ collectDatabasesAndTablesInfo ctx (fun _ => cat) q timeout elapsedAfter fuel
          = (.ok 2 st, []) := by
  obtain ⟨st, hpass, hinv⟩ := @runPass_ok cat ctx q hwf hreq
  have hcross := crossDbCheck_true hwf hinv
  have h20 : ¬ (2 ≤ (0 : Nat)) := by omega
  have h21 : ¬ (2 ≤ (1 : Nat)) := by omega
  have heta : { st with consistent := true } = st := by
    rw [← hinv.1]
  refine ⟨st, hpass, hinv, ?_⟩
  obtain ⟨n, rfl⟩ : ∃ n, fuel = n + 2 := ⟨fuel - 2, by omega⟩
  have hstep2 : collectLoopAux ctx (fun _ => cat) q timeout elapsedAfter (n + 1) 1
      ⟨some (databaseNames st), some (tableNames st)⟩ = (.ok 2 st, []) := by
    rw [collectLoopAux]
    simp only [hpass, checkConsistency_same hinv.1 hcross, h21, heta]
    simp
  unfold collectDatabasesAndTablesInfo
  rw [show n + 2 = (n + 1) + 1 from rfl, collectLoopAux]
  simp only [hpass, checkConsistency_no_prev hinv.1 hcross, h20]
  simp [hstep2]

/-- C1: against a catalog that does not change between passes (well formed,
with all required lookups succeeding so the scan does not hard-fail),
`collectDatabasesAndTablesInfo` terminates successfully after exactly 2
passes: pass 0 is never accepted (there are no previous name/key sets yet —
the convergence check installs them and reports inconsistency), and pass 1
is accepted because its internal cross-checks pass and it collects the same
state — in particular the same database-name set and `TableKey` set — as
pass 0.  The accepted state is the state `st` produced by a single pass. -/
theorem collectDatabasesAndTablesInfo_two_passes
    (ctx : ScanCtx) (cat : Catalog) (q : List QueryElement)
    (timeout : Int) (elapsedAfter : Nat → Int) (fuel : Nat)
    (hwf : WellFormed cat) (hreq : RequiredOk cat q = true) (hfuel : 2 ≤ fuel) :
    ∃ st, runPass cat ctx q = .ok st
      ∧ collectDatabasesAndTablesInfo ctx (fun _ => cat) q timeout elapsedAfter fuel
          = (.ok 2 st, []) := by
  obtain ⟨st, h1, _, h2⟩ := fixed_catalog_two_passes ctx cat q timeout elapsedAfter fuel
    hwf hreq hfuel
  exact ⟨st, h1, h2⟩

theorem collectDatabasesAndTablesInfo_two_passes_witness :
    ∃ st, runPass ⟨[("d", ⟨1, some "d", [("t", ⟨10, some ⟨"d", "t", false⟩⟩)]⟩)], 0, []⟩
        ⟨⟨fun s => s, fun n => n, fun s => s⟩, fun s => s, "/"⟩
        [.table "d" "t" none] = .ok st
      ∧ collectDatabasesAndTablesInfo
          ⟨⟨fun s => s, fun n => n, fun s => s⟩, fun s => s, "/"⟩
          (fun _ => ⟨[("d", ⟨1, some "d", [("t", ⟨10, some ⟨"d", "t", false⟩⟩)]⟩)], 0, []⟩)
          [.table "d" "t" none] (-1) (fun _ => 0) 2 = (.ok 2 st, []) :=
  collectDatabasesAndTablesInfo_two_passes _ _ _ (-1) (fun _ => 0) 2
    (by decide) (by decide) (by decide)

/-! ## Best-effort misses (C2) -/

theorem collectResolvedTable_lookup_ne {ctx : ScanCtx} {st : ScanState}
    {name : QualifiedTableName} {temp : Bool} {parts : Option (List String)}
    {database storageId : Nat} {c : CreateTableQuery} {k : TableKey}
    (hne : (⟨name, temp⟩ : TableKey) ≠ k) :
    lookupA (collectResolvedTable ctx st name temp parts database storageId c).table_infos k
      = lookupA st.table_infos k := by
  unfold collectResolvedTable
  split
  · rfl
  · split
    · split
      · rfl
      · exact lookupA_insertA_ne _ _ _ _ hne
    · exact lookupA_insertA_ne _ _ _ _ hne

theorem collectTableInfo_true_miss_err {cat : Catalog} {ctx : ScanCtx} {st st2 : ScanState}
    {name : QualifiedTableName} {temp : Bool} {parts : Option (List String)}
    (hmiss : tryCollect cat ⟨name, temp⟩ = none)
    (h : collectTableInfo cat ctx st name temp parts true = .ok st2) : False := by
  unfold tryCollect at hmiss
  unfold collectTableInfo at h
  match hres : resolveDatabaseAndTable cat name temp with
  | none =>
    rw [hres] at h
    simp at h
  | some (database, s) =>
    simp only [show (⟨name, temp⟩ : TableKey).name = name from rfl,
      show (⟨name, temp⟩ : TableKey).is_temporary = temp from rfl, hres] at hmiss
    match hc : s.create_table_query with
    | some c =>
      simp only [hc] at hmiss
      exact Option.noConfusion hmiss
    | none =>
      rw [hres] at h
      simp [hc] at h

theorem ct_preserves_none {cat : Catalog} {ctx : ScanCtx} {st st2 : ScanState}
    {name : QualifiedTableName} {temp : Bool} {parts : Option (List String)} {req : Bool}
    {k : TableKey} (hmiss : tryCollect cat k = none)
    (h : collectTableInfo cat ctx st name temp parts req = .ok st2)
    (hk : lookupA st.table_infos k = none) :
    lookupA st2.table_infos k = none := by
  match htc : tryCollect cat ⟨name, temp⟩ with
  | some (database, storageId, c) =>
    have hkne : (⟨name, temp⟩ : TableKey) ≠ k := by
      intro he
      rw [he, hmiss] at htc
      exact Option.noConfusion htc
    obtain ⟨s, hres, hsid, hc⟩ := tryCollect_some_elim htc
    rw [collectTableInfo_eq_of_hit hres hc] at h
    cases h
    rw [collectResolvedTable_lookup_ne hkne]
    exact hk
  | none =>
    cases req
    · rw [collectTableInfo_eq_of_miss htc] at h
      cases h
      exact hk
    · exact absurd h (fun h2 => collectTableInfo_true_miss_err htc h2)

theorem cdt_preserves_none {cat : Catalog} {ctx : ScanCtx} {database_name : String}
    {except_tables : List (String × String)} {k : TableKey}
    (hmiss : tryCollect cat k = none) :
    ∀ (tables : List (String × StorageInfo)) (st st2 : ScanState),
      collectDatabaseTables cat ctx database_name except_tables tables st = .ok st2 →
      lookupA st.table_infos k = none → lookupA st2.table_infos k = none
  | [], st, st2, h, hk => by
    cases h
    exact hk
  | (tname, s0) :: rest, st, st2, h, hk => by
    unfold collectDatabaseTables at h
    split at h
    · exact cdt_preserves_none hmiss rest st st2 h hk
    · match hm : collectTableInfo cat ctx st ⟨database_name, tname⟩ false none false with
      | .error e =>
        rw [hm] at h
        cases h
      | .ok stm =>
        rw [hm] at h
        have hkm := ct_preserves_none hmiss hm hk
        simp only at h
        split at h
        · exact cdt_preserves_none hmiss rest stm st2 h hkm
        · cases h
          exact hkm

theorem crd_preserves_none {cat : Catalog} {ctx : ScanCtx} {st st2 : ScanState}
    {database_name : String} {except_tables : List (String × String)}
    {d : CatDatabase} {cq : String} {k : TableKey}
    (hmiss : tryCollect cat k = none)
    (h : collectResolvedDatabase cat ctx st database_name except_tables d cq = .ok st2)
    (hk : lookupA st.table_infos k = none) :
    lookupA st2.table_infos k = none := by
  unfold collectResolvedDatabase at h
  split at h
  · cases h
    exact hk
  · split at h
    · split at h
      · cases h
        exact hk
      · exact cdt_preserves_none hmiss d.tables _ st2 h hk
    · exact cdt_preserves_none hmiss d.tables _ st2 h hk

theorem cdi_preserves_none {cat : Catalog} {ctx : ScanCtx} {st st2 : ScanState}
    {database_name : String} {except_tables : List (String × String)} {req : Bool}
    {k : TableKey} (hmiss : tryCollect cat k = none)
    (h : collectDatabaseInfo cat ctx st database_name except_tables req = .ok st2)
    (hk : lookupA st.table_infos k = none) :
    lookupA st2.table_infos k = none := by
  unfold collectDatabaseInfo at h
  split at h
  · split at h
    · cases h
    · split at h
      · cases h
      · exact crd_preserves_none hmiss h hk
  · split at h
    · cases h
      exact hk
    · split at h
      · cases h
        exact hk
      · exact crd_preserves_none hmiss h hk

theorem cadl_preserves_none {cat : Catalog} {ctx : ScanCtx}
    {except_databases : List String} {except_tables : List (String × String)} {k : TableKey}
    (hmiss : tryCollect cat k = none) :
    ∀ (dbs : List (String × CatDatabase)) (st st2 : ScanState),
      collectAllDatabasesList cat ctx except_databases except_tables dbs st = .ok st2 →
      lookupA st.table_infos k = none → lookupA st2.table_infos k = none
  | [], st, st2, h, hk => by
    cases h
    exact hk
  | (database_name, d) :: rest, st, st2, h, hk => by
    unfold collectAllDatabasesList at h
    split at h
    · exact cadl_preserves_none hmiss rest st st2 h hk
    · match hm : collectDatabaseInfo cat ctx st database_name except_tables false with
      | .error e =>
        rw [hm] at h
        cases h
      | .ok stm =>
        rw [hm] at h
        have hkm := cdi_preserves_none hmiss hm hk
        simp only at h
        split at h
        · exact cadl_preserves_none hmiss rest stm st2 h hkm
        · cases h
          exact hkm

theorem pe_preserves_none {cat : Catalog} {ctx : ScanCtx} {e : QueryElement}
    {st st2 : ScanState} {k : TableKey} (hmiss : tryCollect cat k = none)
    (h : processElement cat ctx st e = .ok st2)
    (hk : lookupA st.table_infos k = none) :
    lookupA st2.table_infos k = none := by
  match e with
  | .table database_name table_name partitions =>
    simp only [processElement] at h
    exact ct_preserves_none hmiss h hk
  | .temporaryTable table_name partitions =>
    simp only [processElement] at h
    exact ct_preserves_none hmiss h hk
  | .database database_name except_tables =>
    simp only [processElement] at h
    exact cdi_preserves_none hmiss h hk
  | .all except_databases except_tables =>
    simp only [processElement, collectAllDatabasesInfo] at h
    exact cadl_preserves_none hmiss cat.databases st st2 h hk

theorem re_preserves_none {cat : Catalog} {ctx : ScanCtx} {k : TableKey}
    (hmiss : tryCollect cat k = none) :
    ∀ (q : List QueryElement) (st st2 : ScanState),
      runElements cat ctx q st = .ok st2 →
      lookupA st.table_infos k = none → lookupA st2.table_infos k = none
  | [], st, st2, h, hk => by
    cases h
    exact hk
  | e :: rest, st, st2, h, hk => by
    unfold runElements at h
    match hm : processElement cat ctx st e with
    | .error err =>
      rw [hm] at h
      cases h
    | .ok stm =>
      rw [hm] at h
      exact re_preserves_none hmiss rest stm st2 h (pe_preserves_none hmiss hm hk)

theorem checkConsistency_false_of_missing {st : ScanState} {prev : PrevSets}
    {k : TableKey} {ptn : Finset TableKey}
    (hk : lookupA st.table_infos k = none)
    (hp : prev.previous_table_names = some ptn) (hkin : k ∈ ptn) :
    (checkConsistency st prev).1 = false := by
  have hne : ∀ ptn2, ptn2 = ptn → ptn2 ≠ tableNames st := by
    intro ptn2 he2 he
    rw [he2] at he
    rw [he] at hkin
    unfold tableNames at hkin
    rw [List.mem_toFinset] at hkin
    have h2 := (@lookupA_isSome_iff_mem_keys _ _ _ st.table_infos k).2 hkin
    rw [hk] at h2
    cases h2
  unfold checkConsistency
  split
  · rfl
  · split
    · rfl
    · split
      · rename_i pdn ptn2 hpd hpt
        rw [hpt] at hp
        split
        · rename_i hcond
          exfalso
          exact hne ptn2 (Option.some.inj hp) hcond.2
        · rfl
      · rfl

/-- C2: during a best-effort lookup in `collectTableInfo` over a pass-stable
catalog, a table that cannot be resolved or whose definition cannot be
retrieved (`tryCollect` returns `none`) never enters the pass's `table_infos`;
if the key was in the previous pass's result the pass is rejected by
`checkConsistency` (hence retried); and the miss itself is tolerated by the
lookup — the scan state is returned entirely unchanged — when the key is not
in the pass's (current) map. -/
theorem collectTableInfo_missing_table_spec
    (cat : Catalog) (ctx : ScanCtx) (q : List QueryElement) (prev : PrevSets) (k : TableKey)
    (hmiss : tryCollect cat k = none) :
    (∀ st, runPass cat ctx q = .ok st → lookupA st.table_infos k = none)
    ∧ (∀ st ptn, runPass cat ctx q = .ok st → prev.previous_table_names = some ptn →
        k ∈ ptn → (checkConsistency st prev).1 = false)
    ∧ (∀ (st : ScanState) (name : QualifiedTableName) (temp : Bool),
        TableKey.mk name temp = k → lookupA st.table_infos k = none →
        collectTableInfo cat ctx st name temp none false = .ok st) := by
  have h1 : ∀ st, runPass cat ctx q = .ok st → lookupA st.table_infos k = none := by
    intro st h
    exact re_preserves_none hmiss q _ st h rfl
  refine ⟨h1, ?_, ?_⟩
  · intro st ptn h hp hkin
    exact checkConsistency_false_of_missing (h1 st h) hp hkin
  · intro st name temp hke hk
    subst hke
    rw [collectTableInfo_eq_of_miss hmiss, hk]
    cases st with
    | mk di ti co => simp

theorem collectTableInfo_missing_table_spec_witness :
    ∃ st, runPass ⟨[("d", ⟨1, some "d",
          [("t", ⟨10, none⟩), ("u", ⟨20, some ⟨"d", "u", false⟩⟩)]⟩)], 0, []⟩
        ⟨⟨fun s => s, fun n => n, fun s => s⟩, fun s => s, "/"⟩
        [.database "d" []] = .ok st
      ∧ (checkConsistency st
          ⟨some {"d"}, some {⟨⟨"d", "t"⟩, false⟩, ⟨⟨"d", "u"⟩, false⟩}⟩).1 = false := by
  have h := (collectTableInfo_missing_table_spec
    ⟨[("d", ⟨1, some "d", [("t", ⟨10, none⟩), ("u", ⟨20, some ⟨"d", "u", false⟩⟩)]⟩)], 0, []⟩
    ⟨⟨fun s => s, fun n => n, fun s => s⟩, fun s => s, "/"⟩
    [.database "d" []]
    ⟨some {"d"}, some {⟨⟨"d", "t"⟩, false⟩, ⟨⟨"d", "u"⟩, false⟩}⟩
    ⟨⟨"d", "t"⟩, false⟩ (by decide)).2.1
  exact ⟨_, rfl, h _ _ rfl rfl (by decide)⟩

/-! ## Convergence deadline and indefinite retry (C4) -/

/-- The convergence-failure error class (`CANNOT_COLLECT_OBJECTS_FOR_BACKUP`). -/
def BackupError.isCannotCollect : BackupError → Bool
  | .cannotCollect _ _ => true
  | _ => false

theorem collectTableInfo_err {cat : Catalog} {ctx : ScanCtx} {st : ScanState}
    {name : QualifiedTableName} {temp : Bool} {parts : Option (List String)} {req : Bool}
    {e : BackupError}
    (h : collectTableInfo cat ctx st name temp parts req = .error e) :
    e.isCannotCollect = false := by
  unfold collectTableInfo at h
  split at h
  · split at h
    · cases h
      rfl
    · split at h
      · cases h
        rfl
      · exact Except.noConfusion h
  · split at h
    · split at h
      · exact Except.noConfusion h
      · exact Except.noConfusion h
    · exact Except.noConfusion h

theorem cdt_err {cat : Catalog} {ctx : ScanCtx} {database_name : String}
    {except_tables : List (String × String)} :
    ∀ (tables : List (String × StorageInfo)) (st : ScanState) (e : BackupError),
      collectDatabaseTables cat ctx database_name except_tables tables st = .error e →
      e.isCannotCollect = false
  | [], st, e, h => Except.noConfusion h
  | (tname, s0) :: rest, st, e, h => by
    unfold collectDatabaseTables at h
    split at h
    · exact cdt_err rest st e h
    · match hm : collectTableInfo cat ctx st ⟨database_name, tname⟩ false none false with
      | .error e2 =>
        rw [hm] at h
        cases h
        exact collectTableInfo_err hm
      | .ok stm =>
        rw [hm] at h
        simp only at h
        split at h
        · exact cdt_err rest stm e h
        · exact Except.noConfusion h

theorem crd_err {cat : Catalog} {ctx : ScanCtx} {st : ScanState} {database_name : String}
    {except_tables : List (String × String)} {d : CatDatabase} {cq : String} {e : BackupError}
    (h : collectResolvedDatabase cat ctx st database_name except_tables d cq = .error e) :
    e.isCannotCollect = false := by
  unfold collectResolvedDatabase at h
  split at h
  · exact Except.noConfusion h
  · split at h
    · split at h
      · exact Except.noConfusion h
      · exact cdt_err d.tables _ e h
    · exact cdt_err d.tables _ e h

theorem cdi_err {cat : Catalog} {ctx : ScanCtx} {st : ScanState} {database_name : String}
    {except_tables : List (String × String)} {req : Bool} {e : BackupError}
    (h : collectDatabaseInfo cat ctx st database_name except_tables req = .error e) :
    e.isCannotCollect = false := by
  unfold collectDatabaseInfo at h
  split at h
  · split at h
    · cases h
      rfl
    · split at h
      · cases h
        rfl
      · exact crd_err h
  · split at h
    · exact Except.noConfusion h
    · split at h
      · exact Except.noConfusion h
      · exact crd_err h

theorem cadl_err {cat : Catalog} {ctx : ScanCtx} {except_databases : List String}
    {except_tables : List (String × String)} :
    ∀ (dbs : List (String × CatDatabase)) (st : ScanState) (e : BackupError),
      collectAllDatabasesList cat ctx except_databases except_tables dbs st = .error e →
      e.isCannotCollect = false
  | [], st, e, h => Except.noConfusion h
  | (database_name, d) :: rest, st, e, h => by
    unfold collectAllDatabasesList at h
    split at h
    · exact cadl_err rest st e h
    · match hm : collectDatabaseInfo cat ctx st database_name except_tables false with
      | .error e2 =>
        rw [hm] at h
        cases h
        exact cdi_err hm
      | .ok stm =>
        rw [hm] at h
        simp only at h
        split at h
        · exact cadl_err rest stm e h
        · exact Except.noConfusion h

theorem pe_err {cat : Catalog} {ctx : ScanCtx} {st : ScanState} {e : QueryElement}
    {err : BackupError} (h : processElement cat ctx st e = .error err) :
    err.isCannotCollect = false := by
  match e with
  | .table database_name table_name partitions =>
    simp only [processElement] at h
    exact collectTableInfo_err h
  | .temporaryTable table_name partitions =>
    simp only [processElement] at h
    exact collectTableInfo_err h
  | .database database_name except_tables =>
    simp only [processElement] at h
    exact cdi_err h
  | .all except_databases except_tables =>
    simp only [processElement, collectAllDatabasesInfo] at h
    exact cadl_err cat.databases st err h

theorem re_err {cat : Catalog} {ctx : ScanCtx} :
    ∀ (q : List QueryElement) (st : ScanState) (e : BackupError),
      runElements cat ctx q st = .error e → e.isCannotCollect = false
  | [], st, e, h => Except.noConfusion h
  | el :: rest, st, e, h => by
    unfold runElements at h
    match hm : processElement cat ctx st el with
    | .error err =>
      rw [hm] at h
      cases h
      exact pe_err hm
    | .ok stm =>
      rw [hm] at h
      exact re_err rest stm e h

theorem runPass_err {cat : Catalog} {ctx : ScanCtx} {q : List QueryElement} {e : BackupError}
    (h : runPass cat ctx q = .error e) : e.isCannotCollect = false :=
  re_err q _ e h

/-- The warnings the fixed-point loop logs while it keeps retrying: one
`(pass, elapsed)` entry for every pass numbered 2 or higher. -/
def expectedWarnings (elapsedAfter : Nat → Int) : Nat → Nat → List (Nat × Int)
  | _, 0 => []
  | pass, fuel + 1 =>
    (if 2 ≤ pass then [(pass, elapsedAfter pass)] else [])
      ++ expectedWarnings elapsedAfter (pass + 1) fuel

/-- C4: (a) with a non-negative configured timeout, a pass numbered `≥ 2`
that is still inconsistent when the elapsed wall-clock time exceeds the
timeout makes the scan fail permanently with `CANNOT_COLLECT` reporting that
pass number and elapsed time; (b) with a negative timeout (no deadline) the
scan never raises a convergence error, whatever happens; and (c) with no
deadline and every pass inconsistent it retries indefinitely — for every
fuel bound it is still running — logging exactly one warning per pass
numbered 2 or higher. -/
theorem collectLoop_timeout_spec :
    (∀ (ctx : ScanCtx) (cats : Nat → Catalog) (q : List QueryElement) (timeout : Int)
        (elapsedAfter : Nat → Int) (fuel pass : Nat) (prev : PrevSets) (st : ScanState),
      0 ≤ timeout → 2 ≤ pass →
      runPass (cats pass) ctx q = .ok st →
      (checkConsistency st prev).1 = false →
      timeout < elapsedAfter pass →
      collectLoopAux ctx cats q timeout elapsedAfter (fuel + 1) pass prev
        = (.err (.cannotCollect pass (elapsedAfter pass)), []))
    ∧ (∀ (ctx : ScanCtx) (cats : Nat → Catalog) (q : List QueryElement) (timeout : Int)
        (elapsedAfter : Nat → Int) (fuel pass : Nat) (prev : PrevSets) (p : Nat) (e : Int),
      timeout < 0 →
      (collectLoopAux ctx cats q timeout elapsedAfter fuel pass prev).1
        ≠ .err (.cannotCollect p e))
    ∧ (∀ (ctx : ScanCtx) (cats : Nat → Catalog) (q : List QueryElement) (timeout : Int)
        (elapsedAfter : Nat → Int),
      timeout < 0 →
      (∀ n, ∃ st, runPass (cats n) ctx q = .ok st
          ∧ ∀ prev, (checkConsistency st prev).1 = false) →
      ∀ (fuel pass : Nat) (prev : PrevSets),
        collectLoopAux ctx cats q timeout elapsedAfter fuel pass prev
          = (.outOfFuel, expectedWarnings elapsedAfter pass fuel)) := by
  refine ⟨?_, ?_, ?_⟩
  · intro ctx cats q timeout elapsedAfter fuel pass prev st ht hp hps hchk helapsed
    rw [collectLoopAux]
    simp only [hps]
    rw [if_pos ⟨hchk, hp, ht, helapsed⟩]
  · intro ctx cats q timeout elapsedAfter fuel
    induction fuel with
    | zero =>
      intro pass prev p e ht
      simp [collectLoopAux]
    | succ fuel ih =>
      intro pass prev p e ht
      rw [collectLoopAux]
      match hps : runPass (cats pass) ctx q with
      | .error e2 =>
        simp only [hps]
        intro hcontra
        have h2 := runPass_err hps
        rw [show e2 = BackupError.cannotCollect p e from LoopOutcome.err.inj hcontra] at h2
        simp [BackupError.isCannotCollect] at h2
      | .ok st =>
        simp only [hps]
        have hnt : ¬ ((checkConsistency st prev).1 = false ∧ 2 ≤ pass ∧ 0 ≤ timeout
            ∧ timeout < elapsedAfter pass) := by
          rintro ⟨_, _, h0, _⟩
          omega
        rw [if_neg hnt]
        split
        · exact fun hcontra => LoopOutcome.noConfusion hcontra
        · simpa using ih (pass + 1) (checkConsistency st prev).2 p e ht
  · intro ctx cats q timeout elapsedAfter ht hall fuel
    induction fuel with
    | zero =>
      intro pass prev
      rfl
    | succ fuel ih =>
      intro pass prev
      obtain ⟨st, hps, hchk⟩ := hall pass
      rw [collectLoopAux]
      simp only [hps]
      have hnt : ¬ ((checkConsistency st prev).1 = false ∧ 2 ≤ pass ∧ 0 ≤ timeout
          ∧ timeout < elapsedAfter pass) := by
        rintro ⟨_, _, h0, _⟩
        omega
      rw [if_neg hnt, hchk prev]
      simp only [Bool.false_eq_true, if_false]
      rw [ih (pass + 1) (checkConsistency st prev).2]
      rw [expectedWarnings]

theorem collectLoop_timeout_spec_witness :
    collectLoopAux ⟨⟨fun s => s, fun n => n, fun s => s⟩, fun s => s, "/"⟩
        (fun _ => ⟨[("d", ⟨1, some "d", [("t", ⟨10, some ⟨"d", "u", false⟩⟩)]⟩)], 0, []⟩)
        [.table "d" "t" none] 0 (fun _ => 1) 1 2 ⟨none, none⟩
      = (.err (.cannotCollect 2 1), [])
    ∧ (collectLoopAux ⟨⟨fun s => s, fun n => n, fun s => s⟩, fun s => s, "/"⟩
        (fun _ => ⟨[("d", ⟨1, some "d", [("t", ⟨10, some ⟨"d", "u", false⟩⟩)]⟩)], 0, []⟩)
        [.table "d" "t" none] (-1) (fun _ => 1) 5 0 ⟨none, none⟩).1
      ≠ .err (.cannotCollect 3 1)
    ∧ collectLoopAux ⟨⟨fun s => s, fun n => n, fun s => s⟩, fun s => s, "/"⟩
        (fun _ => ⟨[("d", ⟨1, some "d", [("t", ⟨10, some ⟨"d", "u", false⟩⟩)]⟩)], 0, []⟩)
        [.table "d" "t" none] (-1) (fun _ => 1) 3 0 ⟨none, none⟩
      = (.outOfFuel, expectedWarnings (fun _ => 1) 0 3) := by
  obtain ⟨hA, hB, hC⟩ := collectLoop_timeout_spec
  refine ⟨?_, ?_, ?_⟩
  · exact hA _ _ _ 0 (fun _ => 1) 0 2 ⟨none, none⟩ _ (by omega) (by omega) rfl (by decide)
      (by decide)
  · exact hB _ _ _ (-1) (fun _ => 1) 5 0 ⟨none, none⟩ 3 1 (by omega)
  · refine hC _ _ _ (-1) (fun _ => 1) (by omega) ?_ 3 0 ⟨none, none⟩
    intro n
    refine ⟨_, rfl, fun prev => ?_⟩
    rfl

/-! ## Partition accumulation and key dedup (C8) -/

/-- The partition-selector list recorded for a key (empty when the key or
its optional list is absent). -/
def partsListL (l : List (TableKey × TableInfo)) (k : TableKey) : List String :=
  match lookupA l k with
  | some table_info => table_info.partitions.getD []
  | none => []

/-- `partsListL` over a scan state's `table_infos`. -/
def partsList (st : ScanState) (k : TableKey) : List String :=
  partsListL st.table_infos k

/-- The partition selectors a query element requests for the key `k`
(wildcard elements pass no selectors). -/
def requestedParts (k : TableKey) : QueryElement → List String
  | .table database_name table_name partitions =>
    if (⟨⟨database_name, table_name⟩, false⟩ : TableKey) = k then partitions.getD [] else []
  | .temporaryTable table_name partitions =>
    if (⟨⟨"", table_name⟩, true⟩ : TableKey) = k then partitions.getD [] else []
  | .database _ _ => []
  | .all _ _ => []

/-- The database resolves and its definition is retrievable. -/
def databaseResolves (cat : Catalog) (database_name : String) : Bool :=
  match lookupA cat.databases database_name with
  | some d => d.create_database_query.isSome
  | none => false

/-- The query element makes the scan collect the key `k`: either a direct
mention, or reachability through a database/all wildcard (the key's database
resolves, the key itself resolves with a retrievable definition, and neither
is excluded). -/
def mentionsKey (cat : Catalog) (k : TableKey) : QueryElement → Bool
  | .table database_name table_name _ =>
    decide ((⟨⟨database_name, table_name⟩, false⟩ : TableKey) = k)
  | .temporaryTable table_name _ =>
    decide ((⟨⟨"", table_name⟩, true⟩ : TableKey) = k)
  | .database database_name except_tables =>
    !k.is_temporary && decide (k.name.database = database_name)
      && !(decide ((database_name, k.name.table) ∈ except_tables))
      && databaseResolves cat database_name && (tryCollect cat k).isSome
  | .all except_databases except_tables =>
    !k.is_temporary && !(decide (k.name.database ∈ except_databases))
      && !(decide ((k.name.database, k.name.table) ∈ except_tables))
      && databaseResolves cat k.name.database && (tryCollect cat k).isSome

theorem collectResolvedTable_partsList_ne {ctx : ScanCtx} {st : ScanState}
    {name : QualifiedTableName} {temp : Bool} {parts : Option (List String)}
    {database storageId : Nat} {c : CreateTableQuery} {k : TableKey}
    (hne : (⟨name, temp⟩ : TableKey) ≠ k) :
    partsList (collectResolvedTable ctx st name temp parts database storageId c) k
      = partsList st k := by
  unfold partsList partsListL
  rw [collectResolvedTable_lookup_ne hne]

theorem collectResolvedTable_partsList_none (ctx : ScanCtx) (st : ScanState)
    (name : QualifiedTableName) (temp : Bool) (database storageId : Nat)
    (c : CreateTableQuery) (k : TableKey) :
    partsList (collectResolvedTable ctx st name temp none database storageId c) k
      = partsList st k := by
  by_cases hk : (⟨name, temp⟩ : TableKey) = k
  · subst hk
    unfold collectResolvedTable
    split
    · rfl
    · split
      · split
        · rfl
        · rename_i table_info heq _
          unfold partsList partsListL
          simp only [lookupA_insertA_self, heq]
          rfl
      · rename_i heq
        unfold partsList partsListL
        simp only [lookupA_insertA_self, heq]
        rfl
  · exact collectResolvedTable_partsList_ne hk

theorem collectTableInfo_partsList_none {cat : Catalog} {ctx : ScanCtx} {st st2 : ScanState}
    {name : QualifiedTableName} {temp : Bool} {req : Bool} {k : TableKey}
    (h : collectTableInfo cat ctx st name temp none req = .ok st2) :
    partsList st2 k = partsList st k := by
  match htc : tryCollect cat ⟨name, temp⟩ with
  | some (database, storageId, c) =>
    obtain ⟨s, hres, hsid, hc⟩ := tryCollect_some_elim htc
    rw [collectTableInfo_eq_of_hit hres hc] at h
    cases h
    exact collectResolvedTable_partsList_none ctx st name temp database s.storageId c k
  | none =>
    cases req
    · rw [collectTableInfo_eq_of_miss htc] at h
      cases h
      rfl
    · exact absurd h (fun h2 => collectTableInfo_true_miss_err htc h2)

theorem collectTableInfo_partsList_ne {cat : Catalog} {ctx : ScanCtx} {st st2 : ScanState}
    {name : QualifiedTableName} {temp : Bool} {parts : Option (List String)} {req : Bool}
    {k : TableKey} (hne : (⟨name, temp⟩ : TableKey) ≠ k)
    (h : collectTableInfo cat ctx st name temp parts req = .ok st2) :
    partsList st2 k = partsList st k := by
  match htc : tryCollect cat ⟨name, temp⟩ with
  | some (database, storageId, c) =>
    obtain ⟨s, hres, hsid, hc⟩ := tryCollect_some_elim htc
    rw [collectTableInfo_eq_of_hit hres hc] at h
    cases h
    exact collectResolvedTable_partsList_ne hne
  | none =>
    cases req
    · rw [collectTableInfo_eq_of_miss htc] at h
      cases h
      rfl
    · exact absurd h (fun h2 => collectTableInfo_true_miss_err htc h2)

theorem collectResolvedTable_presence {ctx : ScanCtx} {st : ScanState}
    {name : QualifiedTableName} {temp : Bool} {parts : Option (List String)}
    {database storageId : Nat} {c : CreateTableQuery} {k : TableKey}
    (hpres : (lookupA st.table_infos k).isSome = true) :
    (lookupA (collectResolvedTable ctx st name temp parts database storageId c).table_infos
      k).isSome = true := by
  unfold collectResolvedTable
  split
  · exact hpres
  · split
    · split
      · exact hpres
      · by_cases hk : (⟨name, temp⟩ : TableKey) = k
        · rw [← hk, lookupA_insertA_self]
          rfl
        · rw [lookupA_insertA_ne _ _ _ _ hk]
          exact hpres
    · by_cases hk : (⟨name, temp⟩ : TableKey) = k
      · rw [← hk, lookupA_insertA_self]
        rfl
      · rw [lookupA_insertA_ne _ _ _ _ hk]
        exact hpres

theorem collectTableInfo_presence {cat : Catalog} {ctx : ScanCtx} {st st2 : ScanState}
    {name : QualifiedTableName} {temp : Bool} {parts : Option (List String)} {req : Bool}
    {k : TableKey} (h : collectTableInfo cat ctx st name temp parts req = .ok st2)
    (hpres : (lookupA st.table_infos k).isSome = true) :
    (lookupA st2.table_infos k).isSome = true := by
  match htc : tryCollect cat ⟨name, temp⟩ with
  | some (database, storageId, c) =>
    obtain ⟨s, hres, hsid, hc⟩ := tryCollect_some_elim htc
    rw [collectTableInfo_eq_of_hit hres hc] at h
    cases h
    exact collectResolvedTable_presence hpres
  | none =>
    cases req
    · rw [collectTableInfo_eq_of_miss htc] at h
      cases h
      exact hpres
    · exact absurd h (fun h2 => collectTableInfo_true_miss_err htc h2)

theorem collectTableInfo_presence_self {cat : Catalog} {ctx : ScanCtx} {st st2 : ScanState}
    {name : QualifiedTableName} {temp : Bool} {parts : Option (List String)} {req : Bool}
    (hwf : WellFormed cat) (hinv : Inv cat st) (htemp : temp = true → name.database = "")
    (hhit : (tryCollect cat ⟨name, temp⟩).isSome = true)
    (h : collectTableInfo cat ctx st name temp parts req = .ok st2) :
    (lookupA st2.table_infos ⟨name, temp⟩).isSome = true := by
  obtain ⟨database, s, c, hres, hc⟩ := tryCollect_isSome_elim hhit
  rw [collectTableInfo_eq_of_hit hres hc] at h
  cases h
  rw [collectResolvedTable_eq hwf hinv hres hc htemp]
  show (lookupA (insertA st.table_infos ⟨name, temp⟩ _) ⟨name, temp⟩).isSome = true
  rw [lookupA_insertA_self]
  rfl

/-- Generic preservation through the table loop of `collectDatabaseInfo`:
any property of `table_infos` preserved by best-effort, selector-free
`collectTableInfo` calls is preserved by the whole loop. -/
theorem cdt_P {cat : Catalog} {ctx : ScanCtx} {database_name : String}
    {except_tables : List (String × String)} {P : List (TableKey × TableInfo) → Prop}
    (hCT : ∀ (st st2 : ScanState) (name : QualifiedTableName),
      collectTableInfo cat ctx st name false none false = .ok st2 →
      P st.table_infos → P st2.table_infos) :
    ∀ (tables : List (String × StorageInfo)) (st st2 : ScanState),
      collectDatabaseTables cat ctx database_name except_tables tables st = .ok st2 →
      P st.table_infos → P st2.table_infos
  | [], st, st2, h, hp => by
    cases h
    exact hp
  | (tname, s0) :: rest, st, st2, h, hp => by
    unfold collectDatabaseTables at h
    split at h
    · exact cdt_P hCT rest st st2 h hp
    · match hm : collectTableInfo cat ctx st ⟨database_name, tname⟩ false none false with
      | .error e =>
        rw [hm] at h
        cases h
      | .ok stm =>
        rw [hm] at h
        have hpm := hCT st stm _ hm hp
        simp only at h
        split at h
        · exact cdt_P hCT rest stm st2 h hpm
        · cases h
          exact hpm

theorem crd_P {cat : Catalog} {ctx : ScanCtx} {st st2 : ScanState} {database_name : String}
    {except_tables : List (String × String)} {d : CatDatabase} {cq : String}
    {P : List (TableKey × TableInfo) → Prop}
    (hCT : ∀ (st st2 : ScanState) (name : QualifiedTableName),
      collectTableInfo cat ctx st name false none false = .ok st2 →
      P st.table_infos → P st2.table_infos)
    (h : collectResolvedDatabase cat ctx st database_name except_tables d cq = .ok st2)
    (hp : P st.table_infos) : P st2.table_infos := by
  unfold collectResolvedDatabase at h
  split at h
  · cases h
    exact hp
  · split at h
    · split at h
      · cases h
        exact hp
      · exact cdt_P hCT d.tables _ st2 h hp
    · exact cdt_P hCT d.tables _ st2 h hp

theorem cdi_P {cat : Catalog} {ctx : ScanCtx} {st st2 : ScanState} {database_name : String}
    {except_tables : List (String × String)} {req : Bool}
    {P : List (TableKey × TableInfo) → Prop}
    (hCT : ∀ (st st2 : ScanState) (name : QualifiedTableName),
      collectTableInfo cat ctx st name false none false = .ok st2 →
      P st.table_infos → P st2.table_infos)
    (h : collectDatabaseInfo cat ctx st database_name except_tables req = .ok st2)
    (hp : P st.table_infos) : P st2.table_infos := by
  unfold collectDatabaseInfo at h
  split at h
  · split at h
    · cases h
    · split at h
      · cases h
      · exact crd_P hCT h hp
  · split at h
    · cases h
      exact hp
    · split at h
      · cases h
        exact hp
      · exact crd_P hCT h hp

theorem cadl_P {cat : Catalog} {ctx : ScanCtx} {except_databases : List String}
    {except_tables : List (String × String)} {P : List (TableKey × TableInfo) → Prop}
    (hCT : ∀ (st st2 : ScanState) (name : QualifiedTableName),
      collectTableInfo cat ctx st name false none false = .ok st2 →
      P st.table_infos → P st2.table_infos) :
    ∀ (dbs : List (String × CatDatabase)) (st st2 : ScanState),
      collectAllDatabasesList cat ctx except_databases except_tables dbs st = .ok st2 →
      P st.table_infos → P st2.table_infos
  | [], st, st2, h, hp => by
    cases h
    exact hp
  | (database_name, d) :: rest, st, st2, h, hp => by
    unfold collectAllDatabasesList at h
    split at h
    · exact cadl_P hCT rest st st2 h hp
    · match hm : collectDatabaseInfo cat ctx st database_name except_tables false with
      | .error e =>
        rw [hm] at h
        cases h
      | .ok stm =>
        rw [hm] at h
        have hpm := cdi_P hCT hm hp
        simp only at h
        split at h
        · exact cadl_P hCT rest stm st2 h hpm
        · cases h
          exact hpm

theorem collectResolvedTable_partsList_self {cat : Catalog} {ctx : ScanCtx} {st : ScanState}
    {name : QualifiedTableName} {temp : Bool} {parts : Option (List String)}
    {database : Nat} {s : StorageInfo} {c : CreateTableQuery}
    (hwf : WellFormed cat) (hinv : Inv cat st)
    (hres : resolveDatabaseAndTable cat name temp = some (database, s))
    (hc : s.create_table_query = some c)
    (htemp : temp = true → name.database = "") :
    partsList (collectResolvedTable ctx st name temp parts database s.storageId c)
        ⟨name, temp⟩
      = partsList st ⟨name, temp⟩ ++ parts.getD [] := by
  rw [collectResolvedTable_eq hwf hinv hres hc htemp]
  unfold partsList partsListL
  simp only [lookupA_insertA_self]
  cases hl : lookupA st.table_infos ⟨name, temp⟩ <;> cases hparts : parts <;>
    simp [mergedParts, Option.elim, hl]

theorem collectTableInfo_partsList_self {cat : Catalog} {ctx : ScanCtx} {st st2 : ScanState}
    {name : QualifiedTableName} {temp : Bool} {parts : Option (List String)} {req : Bool}
    (hwf : WellFormed cat) (hinv : Inv cat st) (htemp : temp = true → name.database = "")
    (hhit : (tryCollect cat ⟨name, temp⟩).isSome = true)
    (h : collectTableInfo cat ctx st name temp parts req = .ok st2) :
    partsList st2 ⟨name, temp⟩ = partsList st ⟨name, temp⟩ ++ parts.getD [] := by
  obtain ⟨database, s, c, hres, hc⟩ := tryCollect_isSome_elim hhit
  rw [collectTableInfo_eq_of_hit hres hc] at h
  cases h
  exact collectResolvedTable_partsList_self hwf hinv hres hc htemp

/-- The table loop of a database wildcard collects the key `k` whenever it
enumerates `k`'s table name and `k` is collectible. -/
theorem cdt_presence {cat : Catalog} {ctx : ScanCtx} {database_name : String}
    {except_tables : List (String × String)} {k : TableKey}
    (hwf : WellFormed cat)
    (htempk : k.is_temporary = false) (hdbk : k.name.database = database_name)
    (hexck : (database_name, k.name.table) ∉ except_tables)
    (hhit : (tryCollect cat k).isSome = true) :
    ∀ (tables : List (String × StorageInfo)) (st st2 : ScanState), Inv cat st →
      k.name.table ∈ tables.map Prod.fst →
      collectDatabaseTables cat ctx database_name except_tables tables st = .ok st2 →
      (lookupA st2.table_infos k).isSome = true
  | [], st, st2, hinv, hmem, h => by simp at hmem
  | (tname, s0) :: rest, st, st2, hinv, hmem, h => by
    unfold collectDatabaseTables at h
    by_cases hkt : k.name.table = tname
    · have hkey : (⟨⟨database_name, tname⟩, false⟩ : TableKey) = k := by
        rcases k with ⟨⟨kd, kt⟩, tmp⟩
        have h1 : tmp = false := htempk
        have h2 : kd = database_name := hdbk
        have h3 : kt = tname := hkt
        rw [h1, h2, h3]
      rw [if_neg (fun hmem2 => hexck (hkt.symm ▸ hmem2))] at h
      match hm : collectTableInfo cat ctx st ⟨database_name, tname⟩ false none false with
      | .error e =>
        rw [hm] at h
        cases h
      | .ok stm =>
        rw [hm] at h
        have hhit2 : (tryCollect cat ⟨⟨database_name, tname⟩, false⟩).isSome = true := by
          rw [hkey]
          exact hhit
        have hpres0 : (lookupA stm.table_infos ⟨⟨database_name, tname⟩, false⟩).isSome = true :=
          collectTableInfo_presence_self hwf hinv (fun hh => Bool.noConfusion hh) hhit2 hm
        rw [hkey] at hpres0
        simp only at h
        split at h
        · exact @cdt_P _ _ _ _ (fun ti => (lookupA ti k).isSome = true)
            (fun a b nm hmm hpp => collectTableInfo_presence hmm hpp)
            rest stm st2 h hpres0
        · cases h
          exact hpres0
    · have hmem2 : k.name.table ∈ rest.map Prod.fst := by
        simp only [List.map_cons, List.mem_cons] at hmem
        rcases hmem with h1 | h1
        · exact absurd h1 hkt
        · exact h1
      split at h
      · exact cdt_presence hwf htempk hdbk hexck hhit rest st st2 hinv hmem2 h
      · match hm : collectTableInfo cat ctx st ⟨database_name, tname⟩ false none false with
        | .error e =>
          rw [hm] at h
          cases h
        | .ok stm =>
          rw [hm] at h
          have hinvm : Inv cat stm :=
            collectTableInfo_inv hwf hinv (fun hh => Bool.noConfusion hh) hm
          simp only at h
          split at h
          · exact cdt_presence hwf htempk hdbk hexck hhit rest stm st2 hinvm hmem2 h
          · rename_i hcons
            exact absurd hinvm.1 hcons

theorem crd_presence {cat : Catalog} {ctx : ScanCtx} {st st2 : ScanState}
    {database_name : String} {except_tables : List (String × String)}
    {d : CatDatabase} {cq : String} {k : TableKey}
    (hwf : WellFormed cat) (hinv : Inv cat st)
    (hdb : lookupA cat.databases database_name = some d)
    (hcq : d.create_database_query = some cq)
    (htempk : k.is_temporary = false) (hdbk : k.name.database = database_name)
    (hexck : (database_name, k.name.table) ∉ except_tables)
    (hhit : (tryCollect cat k).isSome = true)
    (h : collectResolvedDatabase cat ctx st database_name except_tables d cq = .ok st2) :
    (lookupA st2.table_infos k).isSome = true := by
  obtain ⟨database, s, c, hres, hc⟩ := tryCollect_isSome_elim hhit
  rw [htempk] at hres
  obtain ⟨d3, hd3, hdbid3, hlook3⟩ := resolve_false_elim hres
  rw [hdbk] at hd3
  have hd3d : d = d3 := by
    rw [hdb] at hd3
    exact Option.some.inj hd3
  have hmem : k.name.table ∈ d.tables.map Prod.fst := by
    rw [hd3d]
    exact lookupA_isSome_iff_mem_keys.1 (by rw [hlook3]; rfl)
  have hwfdb := hwf.2.2.1 _ (lookupA_mem hdb)
  have hcqe : cq = database_name := by
    rcases hwfdb.1 with h1 | h1
    · rw [h1] at hcq
      exact Option.noConfusion hcq
    · rw [h1] at hcq
      exact (Option.some.inj hcq).symm
  unfold collectResolvedDatabase at h
  rw [if_neg (fun hne => hne hcqe)] at h
  match hl : lookupA st.database_infos database_name with
  | some database_info =>
    simp only [hl] at h
    obtain ⟨d2, hd2, hdbid, hcq2⟩ := hinv.2.2.2.2 _ (lookupA_mem hl)
    have hd2d : d = d2 := by
      rw [hdb] at hd2
      exact Option.some.inj hd2
    rw [if_neg (fun hne => hne (by rw [hdbid, hd2d]))] at h
    exact cdt_presence hwf htempk hdbk hexck hhit d.tables _ st2
      (insert_dbinfo_inv hinv hdb hcq) hmem h
  | none =>
    simp only [hl] at h
    exact cdt_presence hwf htempk hdbk hexck hhit d.tables _ st2
      (insert_dbinfo_inv hinv hdb hcq) hmem h

theorem cadl_presence {cat : Catalog} {ctx : ScanCtx} {except_databases : List String}
    {except_tables : List (String × String)} {k : TableKey}
    (hwf : WellFormed cat)
    (htempk : k.is_temporary = false)
    (hexcd : k.name.database ∉ except_databases)
    (hexck : (k.name.database, k.name.table) ∉ except_tables)
    (hdres : databaseResolves cat k.name.database = true)
    (hhit : (tryCollect cat k).isSome = true) :
    ∀ (dbs : List (String × CatDatabase)) (st st2 : ScanState), Inv cat st →
      k.name.database ∈ dbs.map Prod.fst →
      collectAllDatabasesList cat ctx except_databases except_tables dbs st = .ok st2 →
      (lookupA st2.table_infos k).isSome = true
  | [], st, st2, hinv, hmem, h => by simp at hmem
  | (database_name, d0) :: rest, st, st2, hinv, hmem, h => by
    unfold collectAllDatabasesList at h
    by_cases hdn : k.name.database = database_name
    · rw [if_neg (hdn ▸ hexcd)] at h
      have hdres2 : databaseResolves cat database_name = true := hdn ▸ hdres
      unfold databaseResolves at hdres2
      match hd3 : lookupA cat.databases database_name with
      | none =>
        rw [hd3] at hdres2
        cases hdres2
      | some d3 =>
        simp only [hd3] at hdres2
        obtain ⟨cq, hcq⟩ := Option.isSome_iff_exists.1 hdres2
        match hm : collectDatabaseInfo cat ctx st database_name except_tables false with
        | .error e =>
          rw [hm] at h
          cases h
        | .ok stm =>
          rw [hm] at h
          have hstm : (lookupA stm.table_infos k).isSome = true := by
            unfold collectDatabaseInfo at hm
            simp only [Bool.false_eq_true, if_false, hd3, hcq] at hm
            exact crd_presence hwf hinv hd3 hcq htempk hdn (hdn ▸ hexck) hhit hm
          simp only at h
          split at h
          · exact @cadl_P _ _ _ _ (fun ti => (lookupA ti k).isSome = true)
              (fun a b nm hmm hpp => collectTableInfo_presence hmm hpp) rest stm st2 h hstm
          · cases h
            exact hstm
    · have hmem2 : k.name.database ∈ rest.map Prod.fst := by
        simp only [List.map_cons, List.mem_cons] at hmem
        rcases hmem with h1 | h1
        · exact absurd h1 hdn
        · exact h1
      split at h
      · exact cadl_presence hwf htempk hexcd hexck hdres hhit rest st st2 hinv hmem2 h
      · match hm : collectDatabaseInfo cat ctx st database_name except_tables false with
        | .error e =>
          rw [hm] at h
          cases h
        | .ok stm =>
          rw [hm] at h
          have hinvm : Inv cat stm := by
            obtain ⟨stm2, hm2, hinv2⟩ :=
              @collectDatabaseInfo_false_ok cat ctx st database_name except_tables hwf hinv
            cases hm.symm.trans hm2
            exact hinv2
          simp only at h
          split at h
          · exact cadl_presence hwf htempk hexcd hexck hdres hhit rest stm st2 hinvm hmem2 h
          · rename_i hcons
            exact absurd hinvm.1 hcons

/-- Effect of one query element on the key `k`: its partition list grows by
exactly the selectors the element requests for `k`, presence of `k` is
preserved, and a mentioning element establishes presence. -/
theorem pe_k {cat : Catalog} {ctx : ScanCtx} {e : QueryElement} {k : TableKey}
    {st st2 : ScanState}
    (hwf : WellFormed cat) (hinv : Inv cat st)
    (hreq : RequiredOkElem cat e = true)
    (h : processElement cat ctx st e = .ok st2) :
    partsList st2 k = partsList st k ++ requestedParts k e
    ∧ ((lookupA st.table_infos k).isSome = true → (lookupA st2.table_infos k).isSome = true)
    ∧ (mentionsKey cat k e = true → (lookupA st2.table_infos k).isSome = true) := by
  match e with
  | .table database_name table_name partitions =>
    simp only [processElement] at h
    simp only [RequiredOkElem] at hreq
    by_cases hk : (⟨⟨database_name, table_name⟩, false⟩ : TableKey) = k
    · refine ⟨?_, fun hp => collectTableInfo_presence h hp, fun _ => ?_⟩
      · rw [← hk]
        rw [collectTableInfo_partsList_self hwf hinv (fun hh => Bool.noConfusion hh) hreq h]
        simp [requestedParts]
      · rw [← hk]
        exact collectTableInfo_presence_self hwf hinv (fun hh => Bool.noConfusion hh) hreq h
    · refine ⟨?_, fun hp => collectTableInfo_presence h hp, fun hm => ?_⟩
      · rw [collectTableInfo_partsList_ne hk h]
        simp [requestedParts, hk]
      · exfalso
        simp only [mentionsKey, decide_eq_true_eq] at hm
        exact hk hm
  | .temporaryTable table_name partitions =>
    simp only [processElement] at h
    simp only [RequiredOkElem] at hreq
    by_cases hk : (⟨⟨"", table_name⟩, true⟩ : TableKey) = k
    · refine ⟨?_, fun hp => collectTableInfo_presence h hp, fun _ => ?_⟩
      · rw [← hk]
        rw [collectTableInfo_partsList_self hwf hinv (fun _ => rfl) hreq h]
        simp [requestedParts]
      · rw [← hk]
        exact collectTableInfo_presence_self hwf hinv (fun _ => rfl) hreq h
    · refine ⟨?_, fun hp => collectTableInfo_presence h hp, fun hm => ?_⟩
      · rw [collectTableInfo_partsList_ne hk h]
        simp [requestedParts, hk]
      · exfalso
        simp only [mentionsKey, decide_eq_true_eq] at hm
        exact hk hm
  | .database database_name except_tables =>
    simp only [processElement] at h
    simp only [RequiredOkElem] at hreq
    match hdb : lookupA cat.databases database_name with
    | none =>
      rw [hdb] at hreq
      cases hreq
    | some d =>
      simp only [hdb] at hreq
      obtain ⟨cq, hcq⟩ := Option.isSome_iff_exists.1 hreq
      unfold collectDatabaseInfo at h
      simp only [hdb, hcq, if_true] at h
      refine ⟨?_, ?_, ?_⟩
      · have hp := @crd_P _ _ _ _ _ _ _ _ (fun ti => partsListL ti k = partsList st k)
          (fun a b nm hmm hpp => (collectTableInfo_partsList_none hmm).trans hpp) h rfl
        rw [show partsList st2 k = partsListL st2.table_infos k from rfl, hp,
          requestedParts, List.append_nil]
      · intro hp
        exact @crd_P _ _ _ _ _ _ _ _ (fun ti => (lookupA ti k).isSome = true)
          (fun a b nm hmm hpp => collectTableInfo_presence hmm hpp) h hp
      · intro hm
        simp only [mentionsKey, Bool.and_eq_true, Bool.not_eq_true',
          decide_eq_true_eq] at hm
        obtain ⟨⟨⟨⟨htempk, hdbk⟩, hexck⟩, _⟩, hhit⟩ := hm
        exact crd_presence hwf hinv hdb hcq htempk hdbk
          (by rw [decide_eq_false_iff_not] at hexck; exact hexck) hhit h
  | .all except_databases except_tables =>
    simp only [processElement, collectAllDatabasesInfo] at h
    refine ⟨?_, ?_, ?_⟩
    · have hp := @cadl_P _ _ _ _ (fun ti => partsListL ti k = partsList st k)
        (fun a b nm hmm hpp => (collectTableInfo_partsList_none hmm).trans hpp)
        cat.databases st st2 h rfl
      rw [show partsList st2 k = partsListL st2.table_infos k from rfl, hp,
        requestedParts, List.append_nil]
    · intro hp
      exact @cadl_P _ _ _ _ (fun ti => (lookupA ti k).isSome = true)
        (fun a b nm hmm hpp => collectTableInfo_presence hmm hpp) cat.databases st st2 h hp
    · intro hm
      simp only [mentionsKey, Bool.and_eq_true, Bool.not_eq_true',
        decide_eq_true_eq] at hm
      obtain ⟨⟨⟨⟨htempk, hexcd⟩, hexck⟩, hdres⟩, hhit⟩ := hm
      have hmemdb : k.name.database ∈ cat.databases.map Prod.fst := by
        unfold databaseResolves at hdres
        match hd : lookupA cat.databases k.name.database with
        | none =>
          rw [hd] at hdres
          cases hdres
        | some d2 =>
          exact lookupA_isSome_iff_mem_keys.1 (by rw [hd]; rfl)
      exact cadl_presence hwf htempk
        (by rw [decide_eq_false_iff_not] at hexcd; exact hexcd)
        (by rw [decide_eq_false_iff_not] at hexck; exact hexck)
        hdres hhit cat.databases st st2 hinv hmemdb h

/-- Effect of the whole element loop on the key `k`. -/
theorem re_k {cat : Catalog} {ctx : ScanCtx} {k : TableKey} (hwf : WellFormed cat) :
    ∀ (q : List QueryElement) (st st2 : ScanState), Inv cat st → RequiredOk cat q = true →
      runElements cat ctx q st = .ok st2 →
      partsList st2 k = partsList st k ++ q.flatMap (requestedParts k)
      ∧ (((lookupA st.table_infos k).isSome = true ∨ q.any (mentionsKey cat k) = true) →
          (lookupA st2.table_infos k).isSome = true)
  | [], st, st2, hinv, _, h => by
    cases h
    refine ⟨by simp, ?_⟩
    rintro (hp | hm)
    · exact hp
    · simp at hm
  | e :: rest, st, st2, hinv, hreq, h => by
    rw [RequiredOk, List.all_cons, Bool.and_eq_true] at hreq
    unfold runElements at h
    match hm : processElement cat ctx st e with
    | .error err =>
      rw [hm] at h
      cases h
    | .ok stm =>
      rw [hm] at h
      have hinvm : Inv cat stm := by
        obtain ⟨stm2, hm2, hinv2⟩ := @processElement_ok cat ctx e hwf hreq.1 st hinv
        cases hm.symm.trans hm2
        exact hinv2
      obtain ⟨hparts, hpres⟩ := re_k hwf rest stm st2 hinvm hreq.2 h
      obtain ⟨hep, hemono, hement⟩ := pe_k hwf hinv hreq.1 hm
      refine ⟨?_, ?_⟩
      · rw [hparts, hep]
        simp [List.append_assoc]
      · rintro (hp | hany)
        · exact hpres (Or.inl (hemono hp))
        · rw [List.any_cons, Bool.or_eq_true] at hany
          rcases hany with h1 | h1
          · exact hpres (Or.inl (hement h1))
          · exact hpres (Or.inr h1)

theorem countP_key_one {l : List (TableKey × TableInfo)} {k : TableKey}
    (hnd : (l.map Prod.fst).Nodup) (hs : (lookupA l k).isSome = true) :
    l.countP (fun p => decide (p.1 = k)) = 1 := by
  have hmem : k ∈ l.map Prod.fst := lookupA_isSome_iff_mem_keys.1 hs
  have h1 : (l.map Prod.fst).count k = l.countP (fun p => decide (p.1 = k)) := by
    rw [List.count, List.countP_map]
    rfl
  rw [← h1]
  exact List.count_eq_one_of_mem hnd hmem

/-- C8: over an unchanging well-formed catalog, for a `TableKey` mentioned by
the query (directly and/or through wildcards, possibly several times), the
converged result holds exactly one `TableInfo` entry for that key, and its
partition-selector list is the concatenation (union) of all partition
selectors the query's elements request for that key — accumulated into the
single per-key entry rather than replaced. -/
theorem table_key_dedup_partition_union
    (ctx : ScanCtx) (cat : Catalog) (q : List QueryElement)
    (timeout : Int) (elapsedAfter : Nat → Int) (fuel : Nat) (k : TableKey)
    (hwf : WellFormed cat) (hreq : RequiredOk cat q = true) (hfuel : 2 ≤ fuel)
    (hment : q.any (mentionsKey cat k) = true) :
    ∃ st, collectDatabasesAndTablesInfo ctx (fun _ => cat) q timeout elapsedAfter fuel
        = (.ok 2 st, [])
      ∧ st.table_infos.countP (fun p => decide (p.1 = k)) = 1
      ∧ partsList st k = q.flatMap (requestedParts k) := by
  obtain ⟨st, hpass, hinv, hloop⟩ :=
    fixed_catalog_two_passes ctx cat q timeout elapsedAfter fuel hwf hreq hfuel
  have hinv0 : Inv cat ⟨[], [], true⟩ := by
    refine ⟨rfl, List.nodup_nil, List.nodup_nil, ?_, ?_⟩ <;> intro p hp <;> cases hp
  obtain ⟨hparts, hpres⟩ := re_k hwf q ⟨[], [], true⟩ st hinv0 hreq hpass
  refine ⟨st, hloop, ?_, ?_⟩
  · exact countP_key_one hinv.2.1 (hpres (Or.inr hment))
  · rw [hparts]
    rfl

theorem table_key_dedup_partition_union_witness :
    ∃ st, collectDatabasesAndTablesInfo
        ⟨⟨fun s => s, fun n => n, fun s => s⟩, fun s => s, "/"⟩
        (fun _ => ⟨[("d", ⟨1, some "d", [("t", ⟨10, some ⟨"d", "t", false⟩⟩)]⟩)], 0, []⟩)
        [.table "d" "t" (some ["p1"]), .database "d" []] (-1) (fun _ => 0) 2
        = (.ok 2 st, [])
      ∧ st.table_infos.countP (fun p => decide (p.1 = (⟨⟨"d", "t"⟩, false⟩ : TableKey))) = 1
      ∧ partsList st ⟨⟨"d", "t"⟩, false⟩
        = ([.table "d" "t" (some ["p1"]), .database "d" []].flatMap
            (requestedParts ⟨⟨"d", "t"⟩, false⟩)) :=
  table_key_dedup_partition_union
    ⟨⟨fun s => s, fun n => n, fun s => s⟩, fun s => s, "/"⟩
    ⟨[("d", ⟨1, some "d", [("t", ⟨10, some ⟨"d", "t", false⟩⟩)]⟩)], 0, []⟩
    [.table "d" "t" (some ["p1"]), .database "d" []] (-1) (fun _ => 0) 2
    ⟨⟨"d", "t"⟩, false⟩ (by decide) (by decide) (by decide) (by decide)

/-! ## Pipeline error handling (C5) and single invocation (C7) -/

set_option maxHeartbeats 1600000 in
/-- Any exit of the `try` body that got past the initial re-entry check
leaves the collector in a stage other than `kPreparing`: every exit point
follows a `setStage` to one of the four working stages. -/
theorem pipelineBody_stage {w : PipelineWorld} {c : Collector} {r : PipeResult}
    {c2 : Collector} {evs : List CoordEvent}
    (hst : c.current_stage = Stage.kPreparing)
    (h : pipelineBody w c = (r, c2, evs)) : c2.current_stage ≠ Stage.kPreparing := by
  unfold pipelineBody at h
  rw [if_neg (fun hne => hne hst)] at h
  simp only [setStage, reduceIte] at h
  repeat' split at h
  all_goals cases h
  all_goals intro hh
  all_goals exact Stage.noConfusion hh

/-- Every completed run of `getBackupEntries`, successful or not, leaves the
collector in a stage other than `kPreparing` (on failure the `catch` block
moved it to `kError`). -/
theorem getBackupEntries_stage {w : PipelineWorld} {c : Collector} {r : PipeResult}
    {c2 : Collector} {evs : List CoordEvent}
    (hst : c.current_stage = Stage.kPreparing)
    (h : getBackupEntries w c = (r, c2, evs)) : c2.current_stage ≠ Stage.kPreparing := by
  unfold getBackupEntries at h
  rcases hm : pipelineBody w c with ⟨res, cb, ev⟩
  rw [hm] at h
  cases res with
  | err e =>
    have h2 : ((PipeResult.err e, (setStage w cb Stage.kError (errorMessage e)).1,
        ev ++ (setStage w cb Stage.kError (errorMessage e)).2.1)
          : PipeResult × Collector × List CoordEvent) = (r, c2, evs) := h
    cases h2
    intro hh
    exact Stage.noConfusion hh
  | ok es =>
    have h2 : ((PipeResult.ok es, cb, ev)
      : PipeResult × Collector × List CoordEvent) = (r, c2, evs) := h
    cases h2
    exact pipelineBody_stage hst hm
  | diverged =>
    have h2 : ((PipeResult.diverged, cb, ev)
      : PipeResult × Collector × List CoordEvent) = (r, c2, evs) := h
    cases h2
    exact pipelineBody_stage hst hm

/-- C5: whenever the `try` body of `getBackupEntries` exits with an exception
`e`, the whole call transitions the collector into the `kError` stage,
broadcasts the error message to the peers (a `stageError` coordination call,
which unlike `stageSync` carries no host list or timeout to wait on), and
returns `.err e` — the original exception unchanged and no (partial) entry
list.  The conclusion holds for every world `w`, in particular whichever
value `w.syncErrorOk` takes: a failure of the error broadcast itself is
swallowed and never alters the outcome. -/
theorem getBackupEntries_error_spec (w : PipelineWorld) (c : Collector)
    (e : BackupError) (c2 : Collector) (evs : List CoordEvent)
    (h : pipelineBody w c = (.err e, c2, evs)) :
    getBackupEntries w c
      = (.err e, { c2 with current_stage := Stage.kError },
         evs ++ [.stageError w.settings.host_id (errorMessage e)]) := by
  unfold getBackupEntries
  rw [h]
  rfl

/-- A world whose stage barriers all fail and whose error broadcasts are also
reported failed (`syncErrorOk := false`), so an exception arises at the very
first barrier and the swallowed broadcast failure is exercised. -/
def errorWorld : PipelineWorld where
  settings := ⟨"", [], 0, 0, false⟩
  query := []
  renaming_map := ⟨fun s => s, fun n => n, fun s => s⟩
  escape := fun s => s
  cats := fun _ => ⟨[], 0, []⟩
  timeout := -1
  elapsedAfter := fun _ => 0
  fuel := 2
  syncOk := fun _ => false
  syncErrorOk := false
  backupData := fun _ _ => .ok ([], [])

theorem getBackupEntries_error_spec_witness :
    getBackupEntries errorWorld ⟨Stage.kPreparing, [], []⟩
      = (.err (.syncFailed 1), ⟨Stage.kError, [], []⟩,
         [.stageSync "" 1 [] (-1), .stageError "" (errorMessage (.syncFailed 1))]) :=
  getBackupEntries_error_spec errorWorld ⟨Stage.kPreparing, [], []⟩
    (.syncFailed 1) ⟨Stage.kFindingTables, [], []⟩ [.stageSync "" 1 [] (-1)] rfl

/-- C7: after any completed invocation of `getBackupEntries` that started
from the initial stage — whatever its outcome — a second invocation (under
any world `w2`) fails immediately with the programming-error-class failure
`LOGICAL_ERROR "Already making backup entries"`: the collector's entries and
task queue are untouched, no stage barrier is entered and no collection work
happens (the only emitted coordination call is the error broadcast of the
`catch` block). -/
theorem getBackupEntries_single_shot (w w2 : PipelineWorld) (c : Collector)
    (r : PipeResult) (c2 : Collector) (evs : List CoordEvent)
    (hst : c.current_stage = Stage.kPreparing)
    (h : getBackupEntries w c = (r, c2, evs)) :
    getBackupEntries w2 c2
      = (.err (.logicalError "Already making backup entries"),
         { c2 with current_stage := Stage.kError },
         [.stageError w2.settings.host_id "Already making backup entries"]) := by
  have hc2 := getBackupEntries_stage hst h
  have hb : pipelineBody w2 c2
      = (.err (.logicalError "Already making backup entries"), c2, []) := by
    unfold pipelineBody
    rw [if_pos hc2]
  unfold getBackupEntries
  rw [hb]
  rfl

theorem getBackupEntries_single_shot_witness :
    getBackupEntries errorWorld ⟨Stage.kError, [], []⟩
      = (.err (.logicalError "Already making backup entries"),
         ⟨Stage.kError, [], []⟩,
         [.stageError "" "Already making backup entries"]) :=
  getBackupEntries_single_shot errorWorld errorWorld ⟨Stage.kPreparing, [], []⟩
    (.err (.syncFailed 1)) ⟨Stage.kError, [], []⟩
    [.stageSync "" 1 [] (-1), .stageError "" (errorMessage (.syncFailed 1))]
    rfl rfl

end Backups
